import Mathlib

/-
Verification of the design-token extraction and normalization engine of the
repository (scripts extract_image_colors.py and normalize_tokens.py of the
design-system-extractor plugin).

Modelling conventions, used throughout:

* Python floating-point numbers are modelled two ways.  Ordering and identity
  claims use exact rational numbers (ℚ): they are invariant under the
  monotone rounding performed by IEEE arithmetic, and every concrete rational
  value such a theorem evaluates is reached through exact dyadic arithmetic.
  Where a theorem pins an exact program output whose computation passes
  through non-dyadic floating-point values (the channel arithmetic of the
  normalize_tokens.py scale generator, whose factors multiply by 0.7 and
  0.8), the arithmetic is modelled bit-exactly instead: a binary64 value is
  an exact dyadic rational m * 2^e, and every operation rounds its exact
  result to 53 significant bits, to nearest with ties to even, matching IEEE
  754 on the normal range (none of these computations comes anywhere near
  the subnormal or overflow ranges).
* Python int() truncation of a nonnegative float is Int.floor followed by
  Int.toNat; max(0, x) on a nonnegative value is absorbed by Int.toNat.
* Python strings are Lean String values (a String is its list of characters);
  Python dictionaries are association lists in insertion order.
* Python code that can raise an exception is modelled with Option: none is an
  uncaught exception escaping the modelled function.
-/

namespace DS

/-! ### Hexadecimal colour strings (extract_image_colors.py lines 15-22) -/

/-- Value of one hexadecimal digit, as accepted by Python int(-, 16). -/
def hexDigitVal (c : Char) : Option Nat :=
  if '0' ≤ c ∧ c ≤ '9' then some (c.toNat - 48)
  else if 'a' ≤ c ∧ c ≤ 'f' then some (c.toNat - 87)
  else if 'A' ≤ c ∧ c ≤ 'F' then some (c.toNat - 55)
  else none

/-- Model of Python int(s, 16): a nonempty run of hexadecimal digits parsed to
a number, none (an exception) otherwise.  Python additionally tolerates
surrounding whitespace and a sign, which cannot occur at the call sites
modelled here, where every character is a digit or a dot. -/
def pyIntBase16 (cs : List Char) : Option Nat :=
  match cs with
  | [] => none
  | _ => cs.foldlM (fun acc c => (hexDigitVal c).map (fun d => 16 * acc + d)) 0

/-- An RGB triple of channel values (the code keeps them in 0..255). -/
structure RGB where
  r : Nat
  g : Nat
  b : Nat
deriving DecidableEq, Repr

/-- hex_to_rgb of extract_image_colors.py: strip every leading hash sign
(Python lstrip), then parse the character pairs at offsets 0, 2 and 4. -/
def hex_to_rgb (hex_color : String) : Option RGB := do
  let cs := hex_color.toList.dropWhile (fun c => c == '#')
  let r ← pyIntBase16 (cs.take 2)
  let g ← pyIntBase16 ((cs.drop 2).take 2)
  let b ← pyIntBase16 ((cs.drop 4).take 2)
  pure ⟨r, g, b⟩

/-- Two-digit lowercase hexadecimal rendering of a byte (Python format 02x;
every call site passes a value below 256, for which the zero-padded width-2
format has exactly these two digits). -/
def byteToHexChars (n : Nat) : List Char :=
  [Nat.digitChar (n / 16), Nat.digitChar (n % 16)]

/-- rgb_to_hex of extract_image_colors.py: a hash sign followed by the three
channels as two lowercase hexadecimal digits each. -/
def rgb_to_hex (c : RGB) : String :=
  ⟨'#' :: (byteToHexChars c.r ++ byteToHexChars c.g ++ byteToHexChars c.b)⟩

/-- The sixteen characters the spec calls lowercase hexadecimal digits. -/
def lowerHexDigits : List Char :=
  ("0123456789abcdef" : String).toList

/-- Recogniser for lowercase hexadecimal digits. -/
def isLowerHexDigit (c : Char) : Bool :=
  decide (c ∈ lowerHexDigits)

lemma hexDigitVal_digitChar :
    ∀ c ∈ lowerHexDigits,
      hexDigitVal c = some ((hexDigitVal c).getD 0) ∧
      (hexDigitVal c).getD 0 < 16 ∧
      Nat.digitChar ((hexDigitVal c).getD 0) = c := by decide

lemma lowerHexDigit_ne_hash : ∀ c ∈ lowerHexDigits, (c == '#') = false := by decide

lemma digitChar_hexDigitVal : ∀ d < 16, hexDigitVal (Nat.digitChar d) = some d := by decide

lemma digitChar_ne_hash : ∀ d < 16, (Nat.digitChar d == '#') = false := by decide

lemma pyIntBase16_pair {a b : Char} {va vb : Nat}
    (ha : hexDigitVal a = some va) (hb : hexDigitVal b = some vb) :
    pyIntBase16 [a, b] = some (16 * va + vb) := by
  simp [pyIntBase16, List.foldlM, ha, hb]

/-- C10: parsing a well-formed lowercase hex colour string and formatting the
resulting triple reproduces the original string. -/
theorem hex_rgb_roundtrip (ds : List Char) (h6 : ds.length = 6)
    (hhex : ∀ c ∈ ds, isLowerHexDigit c = true) :
    ∃ c, hex_to_rgb ⟨'#' :: ds⟩ = some c ∧ rgb_to_hex c = ⟨'#' :: ds⟩ := by
  match ds, h6 with
  | [a, b, c, d, e, f], _ =>
    have mem : ∀ x ∈ [a, b, c, d, e, f], x ∈ lowerHexDigits := by
      intro x hx
      have := hhex x hx
      simpa [isLowerHexDigit] using this
    have ha := hexDigitVal_digitChar a (mem a (by simp))
    have hb := hexDigitVal_digitChar b (mem b (by simp))
    have hc := hexDigitVal_digitChar c (mem c (by simp))
    have hd := hexDigitVal_digitChar d (mem d (by simp))
    have he := hexDigitVal_digitChar e (mem e (by simp))
    have hf := hexDigitVal_digitChar f (mem f (by simp))
    have hanh := lowerHexDigit_ne_hash a (mem a (by simp))
    refine ⟨⟨16 * (hexDigitVal a).getD 0 + (hexDigitVal b).getD 0,
             16 * (hexDigitVal c).getD 0 + (hexDigitVal d).getD 0,
             16 * (hexDigitVal e).getD 0 + (hexDigitVal f).getD 0⟩, ?_, ?_⟩
    · simp [hex_to_rgb, String.toList, List.dropWhile, hanh, List.take, List.drop,
        pyIntBase16_pair ha.1 hb.1, pyIntBase16_pair hc.1 hd.1, pyIntBase16_pair he.1 hf.1]
    · have pair : ∀ x y : Char, x ∈ lowerHexDigits → y ∈ lowerHexDigits →
          byteToHexChars (16 * (hexDigitVal x).getD 0 + (hexDigitVal y).getD 0) = [x, y] := by
        intro x y hx hy
        obtain ⟨-, hx16, hxc⟩ := hexDigitVal_digitChar x hx
        obtain ⟨-, hy16, hyc⟩ := hexDigitVal_digitChar y hy
        have hdiv : (16 * (hexDigitVal x).getD 0 + (hexDigitVal y).getD 0) / 16
            = (hexDigitVal x).getD 0 := by omega
        have hmod : (16 * (hexDigitVal x).getD 0 + (hexDigitVal y).getD 0) % 16
            = (hexDigitVal y).getD 0 := by omega
        simp [byteToHexChars, hdiv, hmod, hxc, hyc]
      simp [rgb_to_hex, pair a b (mem a (by simp)) (mem b (by simp)),
        pair c d (mem c (by simp)) (mem d (by simp)),
        pair e f (mem e (by simp)) (mem f (by simp))]

/-- Witness for C10 at the concrete colour string of the default blue. -/
theorem hex_rgb_roundtrip_witness :
    ∃ c, hex_to_rgb ⟨'#' :: ['3', 'b', '8', '2', 'f', '6']⟩ = some c ∧
      rgb_to_hex c = ⟨'#' :: ['3', 'b', '8', '2', 'f', '6']⟩ :=
  hex_rgb_roundtrip ['3', 'b', '8', '2', 'f', '6'] (by decide) (by decide)

/-! ### Brightness and the colour scale generator
(extract_image_colors.py lines 24-28 and 148-171) -/

/-- calculate_brightness: perceived brightness 0.299 R + 0.587 G + 0.114 B. -/
def calculate_brightness (c : RGB) : ℚ :=
  0.299 * (c.r : ℚ) + 0.587 * (c.g : ℚ) + 0.114 * (c.b : ℚ)

/-- Python int() truncation composed with the enclosing max(0, -) of the
darkening loop: for q ≥ 0 this is plain int(q), and for q < 0 it is 0, which
is also max(0, int(q)) there. -/
def pyIntFloor (q : ℚ) : Nat :=
  Int.toNat ⌊q⌋

/-- Scaling factor of a lighter variant: 1 + ((500 - step) / 500) * 0.7. -/
def lighten_factor (step : Nat) : ℚ :=
  1 + ((500 - (step : ℚ)) / 500) * 0.7

/-- Scaling factor of a darker variant: 1 - ((step - 500) / 450) * 0.8. -/
def darken_factor (step : Nat) : ℚ :=
  1 - (((step : ℚ) - 500) / 450) * 0.8

/-- One channel of a lighter variant: min(255, int(c * factor)). -/
def lightChannel (c step : Nat) : Nat :=
  min 255 (pyIntFloor ((c : ℚ) * lighten_factor step))

/-- One channel of a darker variant: max(0, int(c * factor)). -/
def darkChannel (c step : Nat) : Nat :=
  pyIntFloor ((c : ℚ) * darken_factor step)

def lightRGB (p : RGB) (step : Nat) : RGB :=
  ⟨lightChannel p.r step, lightChannel p.g step, lightChannel p.b step⟩

def darkRGB (p : RGB) (step : Nat) : RGB :=
  ⟨darkChannel p.r step, darkChannel p.g step, darkChannel p.b step⟩

def lighterSteps : List Nat := [50, 100, 200, 300, 400]

def darkerSteps : List Nat := [600, 700, 800, 900, 950]

/-- generate_color_scale of extract_image_colors.py: the base colour itself at
step 500, lightened variants at 50-400, darkened variants at 600-950, as a
dictionary in insertion order.  A malformed base string makes hex_to_rgb raise,
modelled by none. -/
def generate_color_scale (base_hex : String) : Option (List (Nat × String)) :=
  (hex_to_rgb base_hex).map (fun base_rgb =>
    (500, base_hex) ::
      (lighterSteps.map (fun step => (step, rgb_to_hex (lightRGB base_rgb step))) ++
       darkerSteps.map (fun step => (step, rgb_to_hex (darkRGB base_rgb step)))))

/-- The eleven steps of a colour scale, in increasing order. -/
def scaleSteps : List Nat := [50, 100, 200, 300, 400, 500, 600, 700, 800, 900, 950]

/-- Perceived brightness of the colour a hex string denotes. -/
def brightnessOfHex (s : String) : Option ℚ :=
  (hex_to_rgb s).map calculate_brightness

/-- Uniform view of the channel transformation a scale applies at one step. -/
def stepChannel (c step : Nat) : Nat :=
  if step < 500 then lightChannel c step
  else if step = 500 then c
  else darkChannel c step

def stepRGB (p : RGB) (step : Nat) : RGB :=
  ⟨stepChannel p.r step, stepChannel p.g step, stepChannel p.b step⟩

lemma hexDigitVal_lt {c : Char} {v : Nat} (h : hexDigitVal c = some v) : v < 16 := by
  have htn : ∀ d : Char, d.toNat = d.val.toBitVec.toNat := by
    intro d; rfl
  unfold hexDigitVal at h
  split_ifs at h with h1 h2 h3 <;> simp only [Option.some.injEq] at h
  · obtain ⟨h1a, h1b⟩ := h1
    have hb := BitVec.le_def.mp (UInt32.le_def.mp (Char.le_def.mp h1b))
    rw [htn] at h
    simp at hb
    omega
  · obtain ⟨h2a, h2b⟩ := h2
    have ha := BitVec.le_def.mp (UInt32.le_def.mp (Char.le_def.mp h2a))
    have hb := BitVec.le_def.mp (UInt32.le_def.mp (Char.le_def.mp h2b))
    rw [htn] at h
    simp at ha hb
    omega
  · obtain ⟨h3a, h3b⟩ := h3
    have ha := BitVec.le_def.mp (UInt32.le_def.mp (Char.le_def.mp h3a))
    have hb := BitVec.le_def.mp (UInt32.le_def.mp (Char.le_def.mp h3b))
    rw [htn] at h
    simp at ha hb
    omega

lemma pyIntBase16_lt {cs : List Char} {v : Nat} (hlen : cs.length ≤ 2)
    (h : pyIntBase16 cs = some v) : v < 256 := by
  match cs, hlen with
  | [], _ => simp [pyIntBase16] at h
  | [a], _ =>
    simp only [pyIntBase16, List.foldlM] at h
    cases ha : hexDigitVal a with
    | none => simp [ha] at h
    | some va =>
      have := hexDigitVal_lt ha
      simp [ha] at h
      omega
  | [a, b], _ =>
    simp only [pyIntBase16, List.foldlM] at h
    cases ha : hexDigitVal a with
    | none => simp [ha] at h
    | some va =>
      cases hb : hexDigitVal b with
      | none => simp [ha, hb] at h
      | some vb =>
        have h16a := hexDigitVal_lt ha
        have h16b := hexDigitVal_lt hb
        simp [ha, hb] at h
        omega

lemma hex_to_rgb_le {s : String} {c : RGB} (h : hex_to_rgb s = some c) :
    c.r ≤ 255 ∧ c.g ≤ 255 ∧ c.b ≤ 255 := by
  simp only [hex_to_rgb, bind, Option.bind] at h
  cases hr : pyIntBase16 ((s.toList.dropWhile (fun c => c == '#')).take 2) with
  | none => rw [hr] at h; exact absurd h (by simp)
  | some vr =>
    rw [hr] at h
    cases hg : pyIntBase16 (((s.toList.dropWhile (fun c => c == '#')).drop 2).take 2) with
    | none => rw [hg] at h; exact absurd h (by simp)
    | some vg =>
      rw [hg] at h
      cases hb : pyIntBase16 (((s.toList.dropWhile (fun c => c == '#')).drop 4).take 2) with
      | none => rw [hb] at h; exact absurd h (by simp)
      | some vb =>
        rw [hb] at h
        have br := pyIntBase16_lt (by simp [List.length_take]) hr
        have bg := pyIntBase16_lt (by simp [List.length_take]) hg
        have bb := pyIntBase16_lt (by simp [List.length_take]) hb
        simp only [pure, Option.some.injEq] at h
        refine ⟨?_, ?_, ?_⟩ <;> rw [← h] <;> simp <;> omega

/-- Formatting then reparsing a byte triple is the identity. -/
lemma hex_to_rgb_rgb_to_hex {c : RGB} (h : c.r ≤ 255 ∧ c.g ≤ 255 ∧ c.b ≤ 255) :
    hex_to_rgb (rgb_to_hex c) = some c := by
  obtain ⟨hr, hg, hb⟩ := h
  have hr1 : c.r / 16 < 16 := by omega
  have hr2 : c.r % 16 < 16 := by omega
  have hg1 : c.g / 16 < 16 := by omega
  have hg2 : c.g % 16 < 16 := by omega
  have hb1 : c.b / 16 < 16 := by omega
  have hb2 : c.b % 16 < 16 := by omega
  have hdrop := digitChar_ne_hash _ hr1
  have pairs : ∀ x y : Nat, x < 16 → y < 16 →
      pyIntBase16 [Nat.digitChar x, Nat.digitChar y] = some (16 * x + y) := by
    intro x y hx hy
    exact pyIntBase16_pair (digitChar_hexDigitVal x hx) (digitChar_hexDigitVal y hy)
  simp [hex_to_rgb, rgb_to_hex, byteToHexChars, String.toList, List.dropWhile, hdrop,
    List.take, List.drop, pairs _ _ hr1 hr2, pairs _ _ hg1 hg2, pairs _ _ hb1 hb2,
    Nat.div_add_mod]

lemma pyIntFloor_mono {q q' : ℚ} (h : q ≤ q') : pyIntFloor q ≤ pyIntFloor q' :=
  Int.toNat_le_toNat (Int.floor_le_floor h)

lemma pyIntFloor_natCast (c : Nat) : pyIntFloor (c : ℚ) = c := by
  simp [pyIntFloor]

/-- The channel value at step t is at most the channel value at step s:
the pointwise ordering the scale respects between two of its steps. -/
def chanLe (s t : Nat) : Prop :=
  ∀ c : Nat, c ≤ 255 → stepChannel c t ≤ stepChannel c s

instance : IsTrans Nat chanLe :=
  ⟨fun _ _ _ hab hbc x hx => le_trans (hbc x hx) (hab x hx)⟩

lemma chanLe_light {s t : Nat} (hs : s < 500) (ht : t < 500)
    (hf : lighten_factor t ≤ lighten_factor s) : chanLe s t := by
  intro c _
  simp only [stepChannel, if_pos hs, if_pos ht]
  exact min_le_min le_rfl (pyIntFloor_mono (mul_le_mul_of_nonneg_left hf (by positivity)))

lemma chanLe_dark {s t : Nat} (hs : ¬ s < 500) (hs5 : ¬ s = 500) (ht : ¬ t < 500)
    (ht5 : ¬ t = 500) (hf : darken_factor t ≤ darken_factor s) : chanLe s t := by
  intro c _
  simp only [stepChannel, if_neg hs, if_neg hs5, if_neg ht, if_neg ht5]
  exact pyIntFloor_mono (mul_le_mul_of_nonneg_left hf (by positivity))

lemma chanLe_400_500 : chanLe 400 500 := by
  intro c hc
  simp only [stepChannel, if_pos (by norm_num : (400 : Nat) < 500),
    if_neg (by norm_num : ¬ (500 : Nat) < 500), if_pos rfl]
  refine Nat.le_min.mpr ⟨hc, ?_⟩
  calc c = pyIntFloor ((c : ℚ) * 1) := by rw [mul_one, pyIntFloor_natCast]
  _ ≤ pyIntFloor ((c : ℚ) * lighten_factor 400) := by
      refine pyIntFloor_mono (mul_le_mul_of_nonneg_left ?_ (by positivity))
      norm_num [lighten_factor]

lemma chanLe_500_600 : chanLe 500 600 := by
  intro c _
  simp only [stepChannel, if_neg (by norm_num : ¬ (500 : Nat) < 500), if_pos rfl,
    if_neg (by norm_num : ¬ (600 : Nat) < 500), if_neg (by norm_num : ¬ (600 : Nat) = 500)]
  calc pyIntFloor ((c : ℚ) * darken_factor 600)
      ≤ pyIntFloor ((c : ℚ) * 1) := by
        refine pyIntFloor_mono (mul_le_mul_of_nonneg_left ?_ (by positivity))
        norm_num [darken_factor]
  _ = c := by rw [mul_one, pyIntFloor_natCast]

lemma chanLe_chain : List.Chain' chanLe scaleSteps := by
  simp only [scaleSteps, List.chain'_cons, List.chain'_singleton, and_true]
  refine ⟨?_, ?_, ?_, ?_, chanLe_400_500, chanLe_500_600, ?_, ?_, ?_, ?_⟩
  · exact chanLe_light (by norm_num) (by norm_num) (by norm_num [lighten_factor])
  · exact chanLe_light (by norm_num) (by norm_num) (by norm_num [lighten_factor])
  · exact chanLe_light (by norm_num) (by norm_num) (by norm_num [lighten_factor])
  · exact chanLe_light (by norm_num) (by norm_num) (by norm_num [lighten_factor])
  · exact chanLe_dark (by norm_num) (by norm_num) (by norm_num) (by norm_num)
      (by norm_num [darken_factor])
  · exact chanLe_dark (by norm_num) (by norm_num) (by norm_num) (by norm_num)
      (by norm_num [darken_factor])
  · exact chanLe_dark (by norm_num) (by norm_num) (by norm_num) (by norm_num)
      (by norm_num [darken_factor])
  · exact chanLe_dark (by norm_num) (by norm_num) (by norm_num) (by norm_num)
      (by norm_num [darken_factor])

lemma chanLe_of_mem {s t : Nat} (hs : s ∈ scaleSteps) (ht : t ∈ scaleSteps)
    (hst : s ≤ t) : chanLe s t := by
  have hpair : List.Pairwise chanLe scaleSteps := List.chain'_iff_pairwise.mp chanLe_chain
  have hsort : List.Pairwise (· < ·) scaleSteps := by decide
  obtain ⟨i, hi⟩ := List.mem_iff_get.mp hs
  obtain ⟨j, hj⟩ := List.mem_iff_get.mp ht
  rcases lt_trichotomy i j with hij | hij | hij
  · exact hi ▸ hj ▸ List.pairwise_iff_get.mp hpair i j hij
  · subst hij
    rw [hi] at hj
    subst hj
    exact fun c _ => le_rfl
  · have := List.pairwise_iff_get.mp hsort j i hij
    rw [hi, hj] at this
    omega

lemma darkChannel_le_self (c s : Nat) (h : darken_factor s ≤ 1) : darkChannel c s ≤ c := by
  calc darkChannel c s ≤ pyIntFloor ((c : ℚ) * 1) := by
        exact pyIntFloor_mono (mul_le_mul_of_nonneg_left h (by positivity))
  _ = c := by rw [mul_one, pyIntFloor_natCast]

lemma stepChannel_le_255 {c : Nat} (hc : c ≤ 255) {s : Nat} (hs : s ∈ scaleSteps) :
    stepChannel c s ≤ 255 := by
  fin_cases hs <;> simp only [stepChannel] <;> try norm_num
  all_goals first
    | exact min_le_left _ _
    | exact hc
    | exact le_trans (darkChannel_le_self _ _ (by norm_num [darken_factor])) hc

lemma stepRGB_500 (p : RGB) : stepRGB p 500 = p := rfl

lemma calculate_brightness_mono {x y : RGB}
    (h : x.r ≤ y.r ∧ x.g ≤ y.g ∧ x.b ≤ y.b) :
    calculate_brightness x ≤ calculate_brightness y := by
  unfold calculate_brightness
  obtain ⟨h1, h2, h3⟩ := h
  refine add_le_add (add_le_add ?_ ?_) ?_ <;>
    refine mul_le_mul_of_nonneg_left ?_ (by norm_num) <;> exact_mod_cast by omega

/-- C1: for a parseable base colour, the generated scale keeps the base string
at step 500 unchanged, and perceived brightness of the scale entries is
monotonically non-increasing from step 50 to step 950. -/
theorem generate_color_scale_spec (base : String) (rgb : RGB)
    (hparse : hex_to_rgb base = some rgb) :
    ∃ scale, generate_color_scale base = some scale ∧
      scale.lookup 500 = some base ∧
      ∀ s₁ s₂, s₁ ∈ scaleSteps → s₂ ∈ scaleSteps → s₁ ≤ s₂ →
        ∀ h₁ h₂, scale.lookup s₁ = some h₁ → scale.lookup s₂ = some h₂ →
          ∃ q₁ q₂, brightnessOfHex h₁ = some q₁ ∧ brightnessOfHex h₂ = some q₂ ∧
            q₂ ≤ q₁ := by
  obtain ⟨hr, hg, hb⟩ := hex_to_rgb_le hparse
  refine ⟨(500, base) ::
      (lighterSteps.map (fun step => (step, rgb_to_hex (lightRGB rgb step))) ++
       darkerSteps.map (fun step => (step, rgb_to_hex (darkRGB rgb step)))),
    by simp [generate_color_scale, hparse], rfl, ?_⟩
  intro s₁ s₂ hs₁ hs₂ h12 h₁ h₂ e₁ e₂
  have lookchar : ∀ s ∈ scaleSteps,
      ((500, base) ::
        (lighterSteps.map (fun step => (step, rgb_to_hex (lightRGB rgb step))) ++
         darkerSteps.map (fun step => (step, rgb_to_hex (darkRGB rgb step))))).lookup s
      = some (if s = 500 then base else rgb_to_hex (stepRGB rgb s)) := by
    intro s hs
    fin_cases hs <;> rfl
  have brightchar : ∀ s ∈ scaleSteps,
      brightnessOfHex (if s = 500 then base else rgb_to_hex (stepRGB rgb s))
      = some (calculate_brightness (stepRGB rgb s)) := by
    intro s hs
    by_cases h5 : s = 500
    · subst h5
      simp [brightnessOfHex, hparse, stepRGB_500]
    · rw [if_neg h5]
      have hle : (stepRGB rgb s).r ≤ 255 ∧ (stepRGB rgb s).g ≤ 255 ∧
          (stepRGB rgb s).b ≤ 255 :=
        ⟨stepChannel_le_255 hr hs, stepChannel_le_255 hg hs, stepChannel_le_255 hb hs⟩
      simp [brightnessOfHex, hex_to_rgb_rgb_to_hex hle]
  rw [lookchar s₁ hs₁] at e₁
  rw [lookchar s₂ hs₂] at e₂
  obtain rfl : h₁ = _ := (Option.some.injEq _ _).mp e₁.symm
  obtain rfl : h₂ = _ := (Option.some.injEq _ _).mp e₂.symm
  refine ⟨calculate_brightness (stepRGB rgb s₁), calculate_brightness (stepRGB rgb s₂),
    brightchar s₁ hs₁, brightchar s₂ hs₂, ?_⟩
  have hc := chanLe_of_mem hs₁ hs₂ h12
  exact calculate_brightness_mono ⟨hc rgb.r hr, hc rgb.g hg, hc rgb.b hb⟩

/-- Witness for C1 at the default blue base colour. -/
theorem generate_color_scale_spec_witness :
    ∃ scale, generate_color_scale "#3b82f6" = some scale ∧
      scale.lookup 500 = some "#3b82f6" ∧
      ∀ s₁ s₂, s₁ ∈ scaleSteps → s₂ ∈ scaleSteps → s₁ ≤ s₂ →
        ∀ h₁ h₂, scale.lookup s₁ = some h₁ → scale.lookup s₂ = some h₂ →
          ∃ q₁ q₂, brightnessOfHex h₁ = some q₁ ∧ brightnessOfHex h₂ = some q₂ ∧
            q₂ ≤ q₁ :=
  generate_color_scale_spec "#3b82f6" ⟨59, 130, 246⟩ (by decide)

/-! ### Colour classification (extract_image_colors.py lines 120-146) -/

/-- One entry of the all_colors list built by extract_colors_from_image: the
dictionary with keys rgb, hex, percentage, brightness and is_grayscale.
Python compares these dictionaries by value; structure equality models that. -/
structure ColorFreq where
  rgb : RGB
  hex : String
  percentage : ℚ
  brightness : ℚ
  is_grayscale : Bool
deriving DecidableEq, Repr

/-- The categorized palette returned by categorize_colors. -/
structure Categorized where
  primary : Option ColorFreq
  grayscale : List ColorFreq
  accents : List ColorFreq
deriving DecidableEq, Repr

/-- The grayscale sublist of the input (local variable grayscale). -/
def grayscaleOf (colors : List ColorFreq) : List ColorFreq :=
  colors.filter (fun c => c.is_grayscale)

/-- The chromatic sublist of the input, order preserved (local variable
chromatic). -/
def chromaticOf (colors : List ColorFreq) : List ColorFreq :=
  colors.filter (fun c => !c.is_grayscale)

/-- The chromatic clusters with percentage above 5 (local variable
primary_candidates). -/
def primaryCandidates (colors : List ColorFreq) : List ColorFreq :=
  (chromaticOf colors).filter (fun c => decide (c.percentage > 5))

/-- The selected primary: first candidate, else first chromatic, else none. -/
def primaryOf (colors : List ColorFreq) : Option ColorFreq :=
  match primaryCandidates colors with
  | c :: _ => some c
  | [] => (chromaticOf colors).head?

/-- The accent list: every chromatic cluster c with c != primary.  Python
compares the dictionaries by value here, and comparing with None is always
unequal. -/
def accentsOf (colors : List ColorFreq) : List ColorFreq :=
  (chromaticOf colors).filter (fun c =>
    match primaryOf colors with
    | none => true
    | some p => decide (c ≠ p))

/-- categorize_colors of extract_image_colors.py.  The grayscale list is
sorted ascending by brightness; Python's stable sort is modelled by a stable
insertion sort. -/
def categorize_colors (colors : List ColorFreq) : Categorized :=
  { primary := primaryOf colors
    grayscale := (grayscaleOf colors).insertionSort (fun a b => a.brightness ≤ b.brightness)
    accents := accentsOf colors }

lemma head?_filter_eq_find? (p : α → Bool) (l : List α) :
    (l.filter p).head? = l.find? p := by
  induction l with
  | nil => rfl
  | cons a t ih =>
    by_cases hp : p a <;> simp [List.filter_cons, List.find?_cons, hp, ih]

/-- C2: the selected primary is the first chromatic cluster with percentage
above 5, else the first chromatic cluster, and with no chromatic cluster at
all both the primary and the accent list are empty. -/
theorem categorize_colors_primary_spec (colors : List ColorFreq) :
    (categorize_colors colors).primary
      = ((chromaticOf colors).find? (fun c => decide (c.percentage > 5))).orElse
          (fun _ => (chromaticOf colors).head?) ∧
    (chromaticOf colors = [] →
      (categorize_colors colors).primary = none ∧
      (categorize_colors colors).accents = []) := by
  constructor
  · show primaryOf colors = _
    rw [← head?_filter_eq_find?]
    unfold primaryOf
    cases hfil : primaryCandidates colors with
    | nil =>
      rw [show (chromaticOf colors).filter (fun c => decide (c.percentage > 5))
        = primaryCandidates colors from rfl, hfil]
      rfl
    | cons c t =>
      rw [show (chromaticOf colors).filter (fun c => decide (c.percentage > 5))
        = primaryCandidates colors from rfl, hfil]
      rfl
  · intro hchrom
    have hcand : primaryCandidates colors = [] := by
      unfold primaryCandidates
      rw [hchrom]
      rfl
    constructor
    · show primaryOf colors = none
      unfold primaryOf
      rw [hcand, hchrom]
      rfl
    · show accentsOf colors = []
      unfold accentsOf
      rw [hchrom]
      rfl

/-- Witness for C2 on a palette of one grayscale cluster: no chromatic
cluster, hence no primary and no accents. -/
theorem categorize_colors_primary_spec_witness :
    (categorize_colors [⟨⟨100, 100, 100⟩, "#646464", 37, 100, true⟩]).primary = none ∧
    (categorize_colors [⟨⟨100, 100, 100⟩, "#646464", 37, 100, true⟩]).accents = [] :=
  (categorize_colors_primary_spec [⟨⟨100, 100, 100⟩, "#646464", 37, 100, true⟩]).2
    (by decide)

/-- A chromatic cluster used to exhibit the duplicate-primary behaviour. -/
def dupChroma : ColorFreq := ⟨⟨200, 30, 40⟩, "#c81e28", 30, 87, false⟩

/-- C3 counterexample: in a palette of two identical chromatic clusters the
first is selected primary, and the second copy does not appear in the accent
list — removal is by value, not by identity. -/
theorem accents_drop_duplicate_of_primary :
    (categorize_colors [dupChroma, dupChroma]).primary = some dupChroma ∧
    dupChroma.is_grayscale = false ∧
    ¬ dupChroma ∈ (categorize_colors [dupChroma, dupChroma]).accents := by
  refine ⟨by decide, by decide, by decide⟩

/-- C3 as amended: the accent list is the chromatic list with every cluster
that is value-equal to the selected primary removed. -/
theorem accents_eq_chromatic_erase_primary_by_value (colors : List ColorFreq) :
    (categorize_colors colors).accents
      = (chromaticOf colors).filter
          (fun c => decide ((categorize_colors colors).primary ≠ some c)) := by
  show accentsOf colors = (chromaticOf colors).filter (fun c => decide (primaryOf colors ≠ some c))
  unfold accentsOf
  apply List.filter_congr
  intro c _
  cases hp : primaryOf colors with
  | none => simp
  | some p => simp [ne_comm]

/-! ### Colour normalization (normalize_tokens.py lines 175-268) -/

/-- is_grayscale_hex of normalize_tokens.py: parse the three channels of the
hex string (offsets 0-2, 2-4, 4-6 after stripping leading hash signs) and
require all pairwise channel differences below 15.  none models the exception
a malformed string raises. -/
def is_grayscale_hex (hex_color : String) : Option Bool := do
  let cs := hex_color.toList.dropWhile (fun c => c == '#')
  let r ← pyIntBase16 (cs.take 2)
  let g ← pyIntBase16 ((cs.drop 2).take 2)
  let b ← pyIntBase16 ((cs.drop 4).take 2)
  pure (decide (|(r : ℤ) - g| < 15) && decide (|(g : ℤ) - b| < 15) &&
    decide (|(r : ℤ) - b| < 15))

/-! #### Bit-exact binary64 arithmetic

generate_color_scale_from_hex truncates each scaled channel to an integer,
so its exact output depends on the low bits of the binary64 products; the
factors involve the non-dyadic literals 0.7 and 0.8, where exact rational
arithmetic and IEEE arithmetic truncate differently (at step 950 the factor
1 - 0.8 is the double 0.19999999999999996, below 1/5).  The channels are
therefore computed in a bit-exact model of binary64: a positive finite
double is an exact dyadic rational m * 2^e, and each operation rounds its
exact result to 53 significant bits, to nearest with ties to even.  Every
value in these computations is zero or lies between 2^-60 and 2^61, far
from the subnormal and overflow ranges, so this is IEEE 754 binary64
arithmetic exactly. -/

/-- A nonnegative binary64 value, as the exact dyadic rational m * 2^e.  The
representation is not required to be normalised: the operations below round
by value. -/
structure F64 where
  m : Nat
  e : Int
deriving DecidableEq, Repr

/-- Number of binary digits of a natural number (fuel-based to stay kernel
computable; every mantissa below has fewer than 320 bits). -/
def bitLen : Nat → Nat → Nat
  | 0, _ => 0
  | fuel + 1, n => if n = 0 then 0 else bitLen fuel (n / 2) + 1

/-- Round the exact value m * 2^e to 53 significant bits, to nearest with
ties to even.  When sticky is true the value being rounded is known to lie
strictly between m * 2^e and (m+1) * 2^e (used for the inexact remainder of
a division, whose quotient always carries more than 53 bits here), which
turns an apparent tie into a round up and leaves every other case alone. -/
def roundPos (m : Nat) (e : Int) (sticky : Bool) : F64 :=
  let b := bitLen 320 m
  if b ≤ 53 then ⟨m, e⟩
  else
    let s := b - 53
    let q := m / 2 ^ s
    let r := m % 2 ^ s
    let h := 2 ^ (s - 1)
    let q2 := if h < r ∨ (r = h ∧ (sticky = true ∨ q % 2 = 1)) then q + 1 else q
    if q2 = 2 ^ 53 then ⟨2 ^ 52, e + (s : Int) + 1⟩ else ⟨q2, e + (s : Int)⟩

/-- Conversion of a Python int to a double (exact at the call sites, which
never exceed 500). -/
def fofNat (n : Nat) : F64 := roundPos n 0 false

/-- Binary64 multiplication: the exact product, rounded. -/
def fmul (x y : F64) : F64 := roundPos (x.m * y.m) (x.e + y.e) false

/-- Binary64 division: the quotient is computed with 110 guard bits, so it
carries more than 53 significant bits whenever the dividend is nonzero, and
a nonzero remainder is passed on as the sticky bit. -/
def fdiv (x y : F64) : F64 :=
  let q := x.m * 2 ^ 110 / y.m
  let r := x.m * 2 ^ 110 % y.m
  roundPos q (x.e - y.e - 110) (decide (r ≠ 0))

/-- The mantissa of x rescaled to the exponent em (em at most x.e). -/
def falign (x : F64) (em : Int) : Nat := x.m * 2 ^ (x.e - em).toNat

/-- Binary64 addition: the exact sum at the smaller exponent, rounded. -/
def fadd (x y : F64) : F64 :=
  let em := min x.e y.e
  roundPos (falign x em + falign y em) em false

/-- Binary64 subtraction of a smaller nonnegative value from a larger one
(the call sites subtract a product below 1 from 1). -/
def fsub (x y : F64) : F64 :=
  let em := min x.e y.e
  roundPos (falign x em - falign y em) em false

/-- Python int() of a nonnegative double: truncation toward zero. -/
def ftruncF (x : F64) : Nat :=
  if 0 ≤ x.e then x.m * 2 ^ x.e.toNat else x.m / 2 ^ (-x.e).toNat

/-- Whether the value of x is strictly below the integer n (exact, as
Python's comparison of a double with an int). -/
def fltNat (x : F64) (n : Nat) : Bool :=
  if 0 ≤ x.e then decide (x.m * 2 ^ x.e.toNat < n) else decide (x.m < n * 2 ^ (-x.e).toNat)

/-- The binary64 value of the literal 0.7: the nearest double,
6305039478318694 * 2^-53. -/
def fp07 : F64 := ⟨6305039478318694, -53⟩

/-- The binary64 value of the literal 0.8: the nearest double,
7205759403792794 * 2^-53. -/
def fp08 : F64 := ⟨7205759403792794, -53⟩

/-- The lighter factor 1 + ((500 - step) / 500) * 0.7 of
generate_color_scale_from_hex, operation by operation in binary64. -/
def lightFactorF (step : Nat) : F64 :=
  fadd (fofNat 1) (fmul (fdiv (fofNat (500 - step)) (fofNat 500)) fp07)

/-- The darker factor 1 - ((step - 500) / 450) * 0.8 of
generate_color_scale_from_hex, operation by operation in binary64. -/
def darkFactorF (step : Nat) : F64 :=
  fsub (fofNat 1) (fmul (fdiv (fofNat (step - 500)) (fofNat 450)) fp08)

/-- One lighter channel of the normalize_tokens.py scale generator, which
clamps before truncating: int(min(255, c * factor)).  min returns its first
argument 255 (an int, unchanged by int()) unless the product is strictly
smaller. -/
def lightChannelN (c step : Nat) : Nat :=
  let v := fmul (fofNat c) (lightFactorF step)
  if fltNat v 255 then ftruncF v else 255

/-- One darker channel of the normalize_tokens.py scale generator:
int(max(0, c * factor)), where the product of nonnegative values is its own
maximum with 0. -/
def darkChannelN (c step : Nat) : Nat :=
  ftruncF (fmul (fofNat c) (darkFactorF step))

/-- generate_color_scale_from_hex of normalize_tokens.py: its own copy of the
scale generator, keyed by the step rendered as a decimal string. -/
def generate_color_scale_from_hex (base_hex : String) : Option (List (String × String)) :=
  (hex_to_rgb base_hex).map (fun base_rgb =>
    ("500", base_hex) ::
      (lighterSteps.map (fun step => (toString step,
        rgb_to_hex ⟨lightChannelN base_rgb.r step, lightChannelN base_rgb.g step,
          lightChannelN base_rgb.b step⟩)) ++
       darkerSteps.map (fun step => (toString step,
        rgb_to_hex ⟨darkChannelN base_rgb.r step, darkChannelN base_rgb.g step,
          darkChannelN base_rgb.b step⟩))))

/-- generate_grayscale_scale of normalize_tokens.py: the fixed 13-step
neutral ramp. -/
def generate_grayscale_scale : List (String × String) :=
  [("white", "#ffffff"), ("50", "#fafafa"), ("100", "#f5f5f5"), ("200", "#e5e5e5"),
   ("300", "#d4d4d4"), ("400", "#a3a3a3"), ("500", "#737373"), ("600", "#525252"),
   ("700", "#404040"), ("800", "#262626"), ("900", "#171717"), ("950", "#0a0a0a"),
   ("black", "#000000")]

/-- The fixed semantic colours of normalize_colors. -/
def semantic_colors : List (String × String) :=
  [("success", "#10b981"), ("warning", "#f59e0b"), ("error", "#ef4444"),
   ("info", "#3b82f6")]

/-- The colors family of the normalized token document. -/
structure NormalizedColors where
  primary : List (String × String)
  semantic : List (String × String)
  neutral : List (String × String)
deriving DecidableEq, Repr

/-- normalize_colors of normalize_tokens.py.  Its callers always pass a list
(extracted_data.get with a list default), so the isinstance guard is the
nonemptiness test, and running the classification on an empty list is
equivalent to skipping it. -/
def normalize_colors (colors : List String) : Option NormalizedColors := do
  let flagged ← colors.mapM (fun c => (is_grayscale_hex c).map (fun g => (c, g)))
  let chromatic := (flagged.filter (fun p => !p.2)).map Prod.fst
  let grayscale := (flagged.filter (fun p => p.2)).map Prod.fst
  let primaryFirst ← match chromatic.head? with
    | some h => generate_color_scale_from_hex h
    | none => pure ([] : List (String × String))
  let neutralFirst := if grayscale.isEmpty then ([] : List (String × String))
    else generate_grayscale_scale
  let primary_scale ← if primaryFirst.isEmpty then generate_color_scale_from_hex "#3b82f6"
    else pure primaryFirst
  let neutral_scale := if neutralFirst.isEmpty then generate_grayscale_scale else neutralFirst
  pure ⟨primary_scale, semantic_colors, neutral_scale⟩

/-- C4: whatever colour list is normalized without fault, the neutral family
is the fixed 13-step grayscale ramp; extracted grayscale values never change
it. -/
theorem normalize_colors_neutral_fixed (colors : List String) (out : NormalizedColors)
    (h : normalize_colors colors = some out) :
    out.neutral = generate_grayscale_scale := by
  simp only [normalize_colors, bind, Option.bind_eq_some] at h
  obtain ⟨flagged, hm, h⟩ := h
  have tail : ∀ (o : Option (List (String × String))) (N : List (String × String)),
      o.bind (fun a => pure (⟨a, semantic_colors, N⟩ : NormalizedColors)) = some out →
      out.neutral = N := by
    intro o N ho
    cases o with
    | none => exact absurd ho (by simp)
    | some a =>
      simp only [Option.some_bind, pure, Option.some.injEq] at ho
      rw [← ho]
  have ramp : ∀ gl : List String,
      (if (if gl.isEmpty = true then ([] : List (String × String))
            else generate_grayscale_scale).isEmpty = true then generate_grayscale_scale
        else if gl.isEmpty = true then ([] : List (String × String))
          else generate_grayscale_scale) = generate_grayscale_scale := by
    intro gl
    by_cases hg : gl.isEmpty <;> simp [hg, generate_grayscale_scale]
  split at h
  · rw [Option.bind_eq_some] at h
    obtain ⟨pf, hpf, h⟩ := h
    split at h
    · rw [tail _ _ h]
      exact ramp _
    · rw [tail _ _ h]
      exact ramp _
  · simp only [pure, Option.some_bind, List.isEmpty_nil, eq_self_iff_true, if_true] at h
    rw [tail _ _ h]
    exact ramp _

/-- Witness for C4 at a one-element grayscale input. -/
theorem normalize_colors_neutral_fixed_witness :
    (normalize_colors ["#808080"]).map NormalizedColors.neutral
      = some generate_grayscale_scale := by
  obtain ⟨l, hl⟩ : ∃ l, generate_color_scale_from_hex "#3b82f6" = some l :=
    ⟨_, by rw [generate_color_scale_from_hex,
      show hex_to_rgb "#3b82f6" = some ⟨59, 130, 246⟩ from by decide, Option.map_some']⟩
  have hflag : List.mapM.loop
      (fun c => (is_grayscale_hex c).map (fun g => (c, g))) ["#808080"] []
      = some [("#808080", true)] := by decide
  have hsome : normalize_colors ["#808080"]
      = some ⟨l, semantic_colors, generate_grayscale_scale⟩ := by
    simp [normalize_colors, bind, hflag, hl, generate_grayscale_scale]
  rw [hsome, Option.map_some', normalize_colors_neutral_fixed ["#808080"] _ hsome]

/-! ### Pixel-to-rem conversion (normalize_tokens.py lines 13-20) -/

/-- The character class of the capture group: a digit or a dot. -/
def isPxNumChar (c : Char) : Bool :=
  c.isDigit || c == '.'

/-- Model of re.match with the pattern capturing a run of digits and dots
followed by the letters px, anchored at the start only.  Backtracking never
helps this pattern: shortening the greedy run leaves a digit or a dot as the
next character, never the letter p, so the regex matches exactly when the
maximal leading run is nonempty and immediately followed by px. -/
def pxMatch (s : String) : Option (List Char) :=
  let run := s.toList.takeWhile isPxNumChar
  let rest := s.toList.drop run.length
  if run ≠ [] ∧ rest.take 2 = ['p', 'x'] then some run else none

/-- Decimal value of a digit run. -/
def digitsToNat (cs : List Char) : Nat :=
  cs.foldl (fun acc c => 10 * acc + (c.toNat - 48)) 0

/-- Model of Python float() applied to a captured run of digits and dots:
defined when the run holds at least one digit and at most one dot, and
otherwise an exception (none).  Floats are exact rationals in this model. -/
def parsePyFloat (cs : List Char) : Option ℚ :=
  if cs.any Char.isDigit ∧ List.count '.' cs ≤ 1 ∧ cs.all isPxNumChar then
    some ((digitsToNat (cs.takeWhile (fun c => c != '.')) : ℚ) +
      (digitsToNat ((cs.dropWhile (fun c => c != '.')).drop 1) : ℚ) /
        10 ^ ((cs.dropWhile (fun c => c != '.')).drop 1).length)
  else none

/-- Fractional decimal digits of a rational in [0, 1), with enough fuel to
exhaust any terminating decimal expansion. -/
def fracDigitChars : Nat → ℚ → List Char
  | 0, _ => []
  | fuel + 1, q =>
    if q = 0 then []
    else Nat.digitChar (pyIntFloor (q * 10)) :: fracDigitChars fuel (q * 10 - pyIntFloor (q * 10))

/-- Decimal digits of a positive number, most significant first, with enough
fuel. -/
def natDigitsAux : Nat → Nat → List Char
  | 0, _ => []
  | _ + 1, 0 => []
  | fuel + 1, n => natDigitsAux fuel (n / 10) ++ [Nat.digitChar (n % 10)]

/-- Decimal rendering of a natural number. -/
def natDigits (n : Nat) : List Char :=
  if n = 0 then ['0'] else natDigitsAux n n

/-- Python float repr of the nonnegative values this engine produces: the
integer part, a dot, and the fractional digits (just 0 if none), e.g. 2.0 or
0.125.  This matches CPython repr on every value whose shortest decimal form
is exact, which covers all values the modelled pipeline constructs. -/
def pyFloatStr (q : ℚ) : String :=
  ⟨natDigits (pyIntFloor q) ++ '.' ::
    (if fracDigitChars q.den (q - pyIntFloor q) = [] then ['0']
     else fracDigitChars q.den (q - pyIntFloor q))⟩

/-- px_to_rem of normalize_tokens.py: a matched pixel length is divided by
the base and rendered as a float followed by rem; any other string passes
through unchanged; a matched run that is not a valid float raises (none). -/
def px_to_rem (px_value : String) (base : ℚ := 16) : Option String :=
  match pxMatch px_value with
  | some numStr => (parsePyFloat numStr).map (fun px => pyFloatStr (px / base) ++ "rem")
  | none => some px_value

lemma parsePyFloat_32 : parsePyFloat ['3', '2'] = some 32 := by
  rw [parsePyFloat, if_pos (by decide)]
  rw [show List.takeWhile (fun c => c != '.') ['3', '2'] = ['3', '2'] from by decide]
  rw [show List.dropWhile (fun c => c != '.') ['3', '2'] = [] from by decide]
  rw [show digitsToNat ['3', '2'] = 32 from by decide]
  simp only [List.drop, digitsToNat, List.foldl, List.length_nil, Option.some.injEq]
  norm_num

lemma pyFloatStr_two : pyFloatStr 2 = "2.0" := by
  have hip : pyIntFloor 2 = 2 := by
    unfold pyIntFloor
    rw [show ⌊(2 : ℚ)⌋ = 2 from by norm_num]
    decide
  have hden : (2 : ℚ).den = 1 := rfl
  have hfrac : (2 : ℚ) - ((2 : Nat) : ℚ) = 0 := by norm_num
  rw [pyFloatStr, hip, hden, hfrac]
  rw [show fracDigitChars 1 0 = [] from rfl]
  rfl

/-- C6 counterexample: converting the string 32px at base 16 yields 2.0rem,
not 2rem — Python formats the float quotient 2.0 with a trailing .0. -/
theorem px_to_rem_32px_eval :
    px_to_rem "32px" 16 = some "2.0rem" ∧ px_to_rem "32px" 16 ≠ some "2rem" := by
  have h1 : pxMatch "32px" = some ['3', '2'] := by decide
  have : px_to_rem "32px" 16 = some (pyFloatStr ((32 : ℚ) / 16) ++ "rem") := by
    simp only [px_to_rem, h1, parsePyFloat_32, Option.map_some']
  rw [show (32 : ℚ) / 16 = 2 by norm_num, pyFloatStr_two] at this
  rw [this]
  exact ⟨rfl, by decide⟩

/-- C6 as amended: px_to_rem of 32px at base 16 is the string 2.0rem (the
quotient in Python float notation), and every string the pixel pattern does
not match passes through unchanged. -/
theorem px_to_rem_spec :
    px_to_rem "32px" 16 = some "2.0rem" ∧
    ∀ s : String, pxMatch s = none → px_to_rem s 16 = some s := by
  refine ⟨px_to_rem_32px_eval.1, ?_⟩
  intro s hs
  rw [px_to_rem, hs]

/-- Witness for the pass-through half of the amended C6 at the string 1rem. -/
theorem px_to_rem_spec_witness : px_to_rem "1rem" 16 = some "1rem" :=
  px_to_rem_spec.2 "1rem" (by decide)

/-! ### Spacing normalization (normalize_tokens.py lines 22-72) -/

/-- Model of Python str.endswith. -/
def strEndsWith (s suffix : String) : Bool :=
  decide (suffix.toList <:+ s.toList)

/-- Model of Python str.replace removing every occurrence of rem, scanning
left to right, with enough fuel. -/
def replaceRemAux : Nat → List Char → List Char
  | _, [] => []
  | 0, l => l
  | fuel + 1, c :: rest =>
    if c = 'r' ∧ rest.take 2 = ['e', 'm'] then replaceRemAux fuel (rest.drop 2)
    else c :: replaceRemAux fuel rest

def replaceRem (cs : List Char) : List Char :=
  replaceRemAux cs.length cs

/-- One iteration of the rem-collection loop of normalize_spacing_scale:
convert the value, and when the result ends in rem, parse it back with the
rem letters removed.  The outer none is an exception escaping the loop, the
inner none a value that is skipped. -/
def remOfVal (val : String) : Option (Option ℚ) := do
  let rem_val ← px_to_rem val
  if strEndsWith rem_val "rem" then
    (parsePyFloat (replaceRem rem_val.toList)).map some
  else
    pure none

/-- The sorted set of collected rem values (Python iterates the set with
sorted; the set is modelled as sorted deduplication). -/
def remValuesOf (spacing_values : List String) : Option (List ℚ) := do
  let opts ← spacing_values.mapM remOfVal
  pure (((opts.filterMap id).dedup).insertionSort (fun a b => a ≤ b))

/-- The fixed increasing reference ladder (local standard_scale). -/
def standard_scale : List ℚ :=
  [0, 0.125, 0.25, 0.375, 0.5, 0.625, 0.75, 0.875, 1, 1.25, 1.5, 1.75, 2,
   2.25, 2.5, 2.75, 3, 3.5, 4, 5, 6, 7, 8, 9, 10, 11, 12, 14, 16, 20, 24]

/-- The fixed baseline scale with its rendered values (local basic_scale). -/
def basic_scale : List (ℚ × String) :=
  [(0, "0"), (0.125, "0.125rem"), (0.25, "0.25rem"), (0.5, "0.5rem"),
   (0.75, "0.75rem"), (1, "1rem"), (1.5, "1.5rem"), (2, "2rem"), (3, "3rem"),
   (4, "4rem")]

/-- Python min(l, key=f): the first element attaining the minimal key.  The
fold replaces the current best only on a strictly smaller key. -/
def pyMinBy (f : ℚ → ℚ) : List ℚ → Option ℚ
  | [] => none
  | x :: xs => some (xs.foldl (fun best y => if f y < f best then y else best) x)

/-- The snapping step: min(standard_scale, key=lambda x: abs(x - rem)). -/
def snapToScale (rem : ℚ) : Option ℚ :=
  pyMinBy (fun x => |x - rem|) standard_scale

/-- Python format of a scale entry: the integral entries of the ladder are
int literals rendered without a decimal point, the rest are floats. -/
def pyNumStr (q : ℚ) : String :=
  if q.den = 1 then ⟨natDigits q.num.toNat⟩ else pyFloatStr q

/-- The used_values dictionary: iterate the sorted rem values, snap each one,
and record the first occurrence of every snapped key. -/
def used_valuesOf (rems : List ℚ) : List (ℚ × String) :=
  rems.foldl (fun used rem =>
    match snapToScale rem with
    | none => used
    | some closest =>
      if (used.lookup closest).isSome then used
      else used ++ [(closest, pyNumStr closest ++ "rem")]) []

/-- Python dict merge of two association lists: left keys in order with
right-hand overrides, then the new right-hand keys in order. -/
def pyDictMerge (a b : List (ℚ × String)) : List (ℚ × String) :=
  a.map (fun kv => (kv.1, (b.lookup kv.1).getD kv.2)) ++
    b.filter (fun kv => (a.lookup kv.1).isNone)

/-- normalize_spacing_scale of normalize_tokens.py: collect and snap the rem
values, merge them with the baseline scale, sort by numeric key (Python
sorted over dict items with distinct keys), and render the names — 0 is
hardcoded, keys below one keep float notation, integral keys above use int
notation. -/
def normalize_spacing_scale (spacing_values : List String) :
    Option (List (String × String)) := do
  let rems ← remValuesOf spacing_values
  let final_scale := pyDictMerge basic_scale (used_valuesOf rems)
  let sorted_scale := final_scale.insertionSort (fun kv kv2 => kv.1 ≤ kv2.1)
  pure (sorted_scale.map (fun kv =>
    (if kv.1 = 0 then "0"
     else if kv.1 < 1 then pyFloatStr kv.1
     else if kv.1.den = 1 then (⟨natDigits kv.1.num.toNat⟩ : String)
     else pyFloatStr kv.1,
     if kv.1 = 0 then "0" else kv.2)))

/-- A string that is a pixel length: a parseable run of digits and dots
followed by exactly the letters px. -/
def isPxLenStr (s : String) : Bool :=
  (s.toList.takeWhile isPxNumChar).any Char.isDigit &&
  decide (List.count '.' (s.toList.takeWhile isPxNumChar) ≤ 1) &&
  decide (s.toList.drop (s.toList.takeWhile isPxNumChar).length = ['p', 'x'])

lemma lookup_eq_none_iff {α β : Type} [DecidableEq α] {l : List (α × β)} {k : α} :
    k ∉ l.map Prod.fst ↔ l.lookup k = none := by
  induction l with
  | nil => simp
  | cons kv t ih =>
    by_cases hk : k = kv.1
    · subst hk
      simp [List.lookup]
    · have hbeq : (k == kv.1) = false := beq_eq_false_iff_ne.mpr hk
      simp only [List.map_cons, List.mem_cons, List.lookup, hbeq]
      rw [← ih]
      constructor
      · intro h hm
        exact h (Or.inr hm)
      · rintro h (h1 | h2)
        · exact hk h1
        · exact h h2

lemma lookup_isSome_iff {α β : Type} [DecidableEq α] {l : List (α × β)} {k : α} :
    (l.lookup k).isSome = true ↔ k ∈ l.map Prod.fst := by
  rw [← not_iff_not, lookup_eq_none_iff]
  cases l.lookup k <;> simp

lemma foldl_min_first (f : ℚ → ℚ) :
    ∀ (xs : List ℚ) (best : ℚ),
      (xs.foldl (fun b y => if f y < f b then y else b) best = best ∧
        ∀ y ∈ xs, f best ≤ f y) ∨
      (∃ l₁ m l₂, xs = l₁ ++ m :: l₂ ∧
        xs.foldl (fun b y => if f y < f b then y else b) best = m ∧
        f m < f best ∧ (∀ y ∈ l₁, f m < f y) ∧ (∀ y ∈ l₂, f m ≤ f y)) := by
  intro xs
  induction xs with
  | nil => exact fun best => Or.inl ⟨rfl, by simp⟩
  | cons y ys ih =>
    intro best
    by_cases hy : f y < f best
    · have hstep : (y :: ys).foldl (fun b y => if f y < f b then y else b) best
          = ys.foldl (fun b y => if f y < f b then y else b) y := by
        simp [List.foldl_cons, if_pos hy]
      rcases ih y with ⟨heq, hall⟩ | ⟨l₁, m, l₂, hsplit, heq, hlt, h₁, h₂⟩
      · refine Or.inr ⟨[], y, ys, by simp, by rw [hstep, heq], hy, by simp, hall⟩
      · refine Or.inr ⟨y :: l₁, m, l₂, by rw [hsplit, List.cons_append],
          by rw [hstep, heq], lt_trans hlt hy, ?_, h₂⟩
        intro z hz
        rcases List.mem_cons.mp hz with rfl | hz
        · exact hlt
        · exact h₁ z hz
    · have hge : f best ≤ f y := le_of_not_lt hy
      have hstep : (y :: ys).foldl (fun b y => if f y < f b then y else b) best
          = ys.foldl (fun b y => if f y < f b then y else b) best := by
        simp [List.foldl_cons, if_neg hy]
      rcases ih best with ⟨heq, hall⟩ | ⟨l₁, m, l₂, hsplit, heq, hlt, h₁, h₂⟩
      · refine Or.inl ⟨by rw [hstep, heq], ?_⟩
        intro z hz
        rcases List.mem_cons.mp hz with rfl | hz
        · exact hge
        · exact hall z hz
      · refine Or.inr ⟨y :: l₁, m, l₂, by rw [hsplit, List.cons_append],
          by rw [hstep, heq], hlt, ?_, h₂⟩
        intro z hz
        rcases List.mem_cons.mp hz with rfl | hz
        · exact lt_of_lt_of_le hlt hge
        · exact h₁ z hz

lemma pyMinBy_spec {f : ℚ → ℚ} {l : List ℚ} {m : ℚ} (h : pyMinBy f l = some m) :
    ∃ l₁ l₂, l = l₁ ++ m :: l₂ ∧ (∀ y ∈ l₁, f m < f y) ∧ (∀ y ∈ l₂, f m ≤ f y) := by
  cases l with
  | nil => exact absurd h (by simp [pyMinBy])
  | cons x xs =>
    simp only [pyMinBy, Option.some.injEq] at h
    rcases foldl_min_first f xs x with ⟨heq, hall⟩ | ⟨l₁, m2, l₂, hsplit, heq, hlt, h₁, h₂⟩
    · rw [heq] at h
      subst h
      exact ⟨[], xs, rfl, by simp, hall⟩
    · rw [heq] at h
      subst h
      refine ⟨x :: l₁, l₂, by rw [hsplit, List.cons_append], ?_, h₂⟩
      intro z hz
      rcases List.mem_cons.mp hz with rfl | hz
      · exact hlt
      · exact h₁ z hz

lemma standard_scale_sorted : List.Pairwise (fun a b : ℚ => a < b) standard_scale := by
  rw [← List.chain'_iff_pairwise]
  norm_num [standard_scale, List.chain'_cons]

/-- The snapping step always returns the ladder entry at minimal absolute
distance, resolving a tie towards the smaller entry. -/
lemma snapToScale_spec (r : ℚ) :
    ∃ m, snapToScale r = some m ∧ m ∈ standard_scale ∧
      ∀ y ∈ standard_scale, |m - r| ≤ |y - r| ∧ (|m - r| = |y - r| → m ≤ y) := by
  obtain ⟨m, hm⟩ : ∃ v, snapToScale r = some v := ⟨_, rfl⟩
  obtain ⟨l₁, l₂, hsplit, h₁, h₂⟩ := pyMinBy_spec hm
  have hpair := standard_scale_sorted
  rw [hsplit] at hpair
  obtain ⟨-, hpair2, -⟩ := List.pairwise_append.mp hpair
  have hml₂ := (List.pairwise_cons.mp hpair2).1
  refine ⟨m, hm, by rw [hsplit]; exact List.mem_append.mpr (Or.inr (List.mem_cons_self _ _)), ?_⟩
  intro y hy
  rw [hsplit] at hy
  rcases List.mem_append.mp hy with hyl | hyr
  · exact ⟨le_of_lt (h₁ y hyl), fun htie => absurd htie (ne_of_lt (h₁ y hyl))⟩
  · rcases List.mem_cons.mp hyr with rfl | hyl₂
    · exact ⟨le_rfl, fun _ => le_rfl⟩
    · exact ⟨h₂ y hyl₂, fun _ => le_of_lt (hml₂ y hyl₂)⟩

lemma used_valuesOf_foldl_spec (rems : List ℚ) :
    ∀ acc : List (ℚ × String), (acc.map Prod.fst).Nodup →
      (((rems.foldl (fun used rem =>
          match snapToScale rem with
          | none => used
          | some closest =>
            if (used.lookup closest).isSome then used
            else used ++ [(closest, pyNumStr closest ++ "rem")]) acc).map Prod.fst).Nodup ∧
       ∀ k, k ∈ (rems.foldl (fun used rem =>
          match snapToScale rem with
          | none => used
          | some closest =>
            if (used.lookup closest).isSome then used
            else used ++ [(closest, pyNumStr closest ++ "rem")]) acc).map Prod.fst ↔
          k ∈ acc.map Prod.fst ∨ ∃ r ∈ rems, snapToScale r = some k) := by
  induction rems with
  | nil => exact fun acc hacc => ⟨hacc, by simp⟩
  | cons r rs ih =>
    intro acc hacc
    cases hsnap : snapToScale r with
    | none =>
      simp only [List.foldl_cons, hsnap]
      obtain ⟨hn, hmem⟩ := ih acc hacc
      refine ⟨hn, fun k => ?_⟩
      rw [hmem k]
      constructor
      · rintro (h | ⟨r2, hr2, hs2⟩)
        · exact Or.inl h
        · exact Or.inr ⟨r2, List.mem_cons_of_mem _ hr2, hs2⟩
      · rintro (h | ⟨r2, hr2, hs2⟩)
        · exact Or.inl h
        · rcases List.mem_cons.mp hr2 with rfl | hr2
          · exact absurd hs2 (by rw [hsnap]; exact fun h => Option.noConfusion h)
          · exact Or.inr ⟨r2, hr2, hs2⟩
    | some closest =>
      simp only [List.foldl_cons, hsnap]
      by_cases hin : (acc.lookup closest).isSome
      · rw [if_pos hin]
        obtain ⟨hn, hmem⟩ := ih acc hacc
        refine ⟨hn, fun k => ?_⟩
        rw [hmem k]
        constructor
        · rintro (h | ⟨r2, hr2, hs2⟩)
          · exact Or.inl h
          · exact Or.inr ⟨r2, List.mem_cons_of_mem _ hr2, hs2⟩
        · rintro (h | ⟨r2, hr2, hs2⟩)
          · exact Or.inl h
          · rcases List.mem_cons.mp hr2 with rfl | hr2
            · rw [hsnap] at hs2
              obtain rfl : closest = k := Option.some.inj hs2
              exact Or.inl (lookup_isSome_iff.mp hin)
            · exact Or.inr ⟨r2, hr2, hs2⟩
      · rw [if_neg hin]
        have hco : closest ∉ acc.map Prod.fst := by
          rw [lookup_eq_none_iff]
          cases hl : acc.lookup closest
          · rfl
          · exact absurd (by rw [hl]; rfl) hin
        have hacc2 : ((acc ++ [(closest, pyNumStr closest ++ "rem")]).map Prod.fst).Nodup := by
          rw [List.map_append, List.nodup_append]
          refine ⟨hacc, by simp, ?_⟩
          intro x hx hx2
          simp only [List.map_cons, List.map_nil, List.mem_singleton] at hx2
          subst hx2
          exact hco hx
        obtain ⟨hn, hmem⟩ := ih _ hacc2
        refine ⟨hn, fun k => ?_⟩
        rw [hmem k]
        constructor
        · rintro (h | ⟨r2, hr2, hs2⟩)
          · rw [List.map_append, List.mem_append] at h
            rcases h with h | h
            · exact Or.inl h
            · simp only [List.map_cons, List.map_nil, List.mem_singleton] at h
              subst h
              exact Or.inr ⟨r, List.mem_cons_self _ _, hsnap⟩
          · exact Or.inr ⟨r2, List.mem_cons_of_mem _ hr2, hs2⟩
        · rintro (h | ⟨r2, hr2, hs2⟩)
          · exact Or.inl (by rw [List.map_append, List.mem_append]; exact Or.inl h)
          · rcases List.mem_cons.mp hr2 with rfl | hr2
            · rw [hsnap] at hs2
              obtain rfl : closest = k := Option.some.inj hs2
              exact Or.inl (by rw [List.map_append, List.mem_append]; right; simp)
            · exact Or.inr ⟨r2, hr2, hs2⟩

lemma used_valuesOf_spec (rems : List ℚ) :
    ((used_valuesOf rems).map Prod.fst).Nodup ∧
    (∀ k, k ∈ (used_valuesOf rems).map Prod.fst ↔ ∃ r ∈ rems, snapToScale r = some k) := by
  obtain ⟨hn, hmem⟩ := used_valuesOf_foldl_spec rems [] (by simp)
  exact ⟨hn, fun k => by simpa using hmem k⟩

lemma pyDictMerge_keys {a b : List (ℚ × String)}
    (ha : (a.map Prod.fst).Nodup) (hb : (b.map Prod.fst).Nodup) :
    ((pyDictMerge a b).map Prod.fst).Nodup ∧
    (∀ k, k ∈ (pyDictMerge a b).map Prod.fst ↔ k ∈ a.map Prod.fst ∨ k ∈ b.map Prod.fst) := by
  have hmapa : ((a.map (fun kv => (kv.1, (b.lookup kv.1).getD kv.2))).map Prod.fst)
      = a.map Prod.fst := by
    rw [List.map_map]
    rfl
  have hfilter : ∀ k, k ∈ ((b.filter (fun kv => (a.lookup kv.1).isNone)).map Prod.fst) →
      k ∈ b.map Prod.fst ∧ k ∉ a.map Prod.fst := by
    intro k hk
    obtain ⟨kv, hkv, rfl⟩ := List.mem_map.mp hk
    obtain ⟨hkvb, hp⟩ := List.mem_filter.mp hkv
    refine ⟨List.mem_map.mpr ⟨kv, hkvb, rfl⟩, ?_⟩
    rw [lookup_eq_none_iff]
    cases hl : a.lookup kv.1
    · rfl
    · rw [hl] at hp
      exact absurd hp (by simp)
  constructor
  · rw [pyDictMerge, List.map_append, List.nodup_append, hmapa]
    refine ⟨ha, ?_, ?_⟩
    · exact ((List.filter_sublist b).map Prod.fst).nodup hb
    · intro k hk hk2
      exact (hfilter k hk2).2 hk
  · intro k
    rw [pyDictMerge, List.map_append, List.mem_append, hmapa]
    constructor
    · rintro (h | h)
      · exact Or.inl h
      · exact Or.inr (hfilter k h).1
    · rintro (h | h)
      · exact Or.inl h
      · by_cases hka : k ∈ a.map Prod.fst
        · exact Or.inl hka
        · right
          obtain ⟨kv, hkvb, rfl⟩ := List.mem_map.mp h
          refine List.mem_map.mpr ⟨kv, List.mem_filter.mpr ⟨hkvb, ?_⟩, rfl⟩
          rw [lookup_eq_none_iff.mp hka]
          rfl

lemma basic_scale_keys_nodup : (basic_scale.map Prod.fst).Nodup := by
  have : List.Pairwise (fun a b : ℚ => a < b) (basic_scale.map Prod.fst) := by
    rw [← List.chain'_iff_pairwise]
    norm_num [basic_scale, List.chain'_cons]
  exact this.imp ne_of_lt

lemma digitChar_isDigit : ∀ d < 10, (Nat.digitChar d).isDigit = true := by decide

lemma isDigit_isPxNumChar {c : Char} (h : c.isDigit = true) : isPxNumChar c = true := by
  simp [isPxNumChar, h]

lemma natDigitsAux_digits : ∀ (fuel n : Nat), ∀ c ∈ natDigitsAux fuel n, c.isDigit = true := by
  intro fuel
  induction fuel with
  | zero => intro n c hc; simp [natDigitsAux] at hc
  | succ f ih =>
    intro n c hc
    cases n with
    | zero => simp [natDigitsAux] at hc
    | succ n2 =>
      simp only [natDigitsAux] at hc
      rcases List.mem_append.mp hc with h | h
      · exact ih _ c h
      · simp only [List.mem_singleton] at h
        subst h
        exact digitChar_isDigit _ (Nat.mod_lt _ (by norm_num))

lemma natDigits_digits (n : Nat) : ∀ c ∈ natDigits n, c.isDigit = true := by
  unfold natDigits
  split_ifs
  · intro c hc; simp only [List.mem_singleton] at hc; subst hc; decide
  · exact natDigitsAux_digits n n

lemma natDigits_ne_nil (n : Nat) : natDigits n ≠ [] := by
  unfold natDigits
  split_ifs with h
  · simp
  · cases n with
    | zero => exact absurd rfl h
    | succ m => simp [natDigitsAux]

lemma fracDigitChars_digits : ∀ (fuel : Nat) (q : ℚ), 0 ≤ q → q < 1 →
    ∀ c ∈ fracDigitChars fuel q, c.isDigit = true := by
  intro fuel
  induction fuel with
  | zero => intro q _ _ c hc; simp [fracDigitChars] at hc
  | succ f ih =>
    intro q h0 h1 c hc
    by_cases hq : q = 0
    · simp [fracDigitChars, hq] at hc
    · simp only [fracDigitChars, if_neg hq] at hc
      have hfl : (0 : ℤ) ≤ ⌊q * 10⌋ := Int.floor_nonneg.mpr (by positivity)
      have hfu : ⌊q * 10⌋ < 10 := by
        rw [Int.floor_lt]
        push_cast
        linarith
      have hcast : ((pyIntFloor (q * 10) : ℚ)) = ((⌊q * 10⌋ : ℤ) : ℚ) := by
        unfold pyIntFloor
        exact_mod_cast congrArg (fun z : ℤ => (z : ℚ)) (Int.toNat_of_nonneg hfl)
      rcases List.mem_cons.mp hc with rfl | hc2
      · refine digitChar_isDigit _ ?_
        unfold pyIntFloor
        omega
      · refine ih _ ?_ ?_ c hc2
        · rw [hcast]
          have := Int.floor_le (q * 10)
          linarith
        · rw [hcast]
          have := Int.lt_floor_add_one (q * 10)
          linarith

lemma pyFloatStr_px (q : ℚ) (hq : 0 ≤ q) :
    (∀ c ∈ (pyFloatStr q).toList, isPxNumChar c = true) ∧
    ∃ v, parsePyFloat (pyFloatStr q).toList = some v := by
  have hfl : (0 : ℤ) ≤ ⌊q⌋ := Int.floor_nonneg.mpr hq
  have hcast : ((pyIntFloor q : ℚ)) = ((⌊q⌋ : ℤ) : ℚ) := by
    unfold pyIntFloor
    exact_mod_cast congrArg (fun z : ℤ => (z : ℚ)) (Int.toNat_of_nonneg hfl)
  have hfrac0 : (0 : ℚ) ≤ q - pyIntFloor q := by
    rw [hcast]
    have := Int.floor_le q
    linarith
  have hfrac1 : q - pyIntFloor q < 1 := by
    rw [hcast]
    have := Int.lt_floor_add_one q
    linarith
  have hipd := natDigits_digits (pyIntFloor q)
  have hfpd : ∀ c ∈ (if fracDigitChars q.den (q - pyIntFloor q) = [] then ['0']
      else fracDigitChars q.den (q - pyIntFloor q)), c.isDigit = true := by
    split_ifs
    · intro c hc; simp only [List.mem_singleton] at hc; subst hc; decide
    · exact fracDigitChars_digits q.den _ hfrac0 hfrac1
  have hdata : (pyFloatStr q).toList
      = natDigits (pyIntFloor q) ++ '.' ::
        (if fracDigitChars q.den (q - pyIntFloor q) = [] then ['0']
         else fracDigitChars q.den (q - pyIntFloor q)) := rfl
  have hall : ∀ c ∈ (pyFloatStr q).toList, isPxNumChar c = true := by
    rw [hdata]
    intro c hc
    rcases List.mem_append.mp hc with h | h
    · exact isDigit_isPxNumChar (hipd c h)
    · rcases List.mem_cons.mp h with rfl | h2
      · decide
      · exact isDigit_isPxNumChar (hfpd c h2)
  refine ⟨hall, ?_⟩
  have hdot : ∀ cs : List Char, (∀ c ∈ cs, c.isDigit = true) → List.count '.' cs = 0 := by
    intro cs hcs
    rw [List.count_eq_zero]
    intro hmem
    have := hcs '.' hmem
    exact absurd this (by decide)
  have hguard : (pyFloatStr q).toList.any Char.isDigit = true ∧
      List.count '.' (pyFloatStr q).toList ≤ 1 ∧
      (pyFloatStr q).toList.all isPxNumChar = true := by
    refine ⟨?_, ?_, ?_⟩
    · rw [hdata, List.any_append]
      obtain ⟨c, hc⟩ := List.exists_mem_of_ne_nil _ (natDigits_ne_nil (pyIntFloor q))
      have : (natDigits (pyIntFloor q)).any Char.isDigit = true :=
        List.any_eq_true.mpr ⟨c, hc, hipd c hc⟩
      rw [this]
      rfl
    · rw [hdata, List.count_append, List.count_cons]
      rw [hdot _ hipd, hdot _ hfpd]
      simp
    · exact List.all_eq_true.mpr hall
  exact ⟨_, by rw [parsePyFloat, if_pos hguard]⟩

lemma replaceRemAux_append_rem : ∀ (fuel : Nat) (cs : List Char), cs.length + 1 ≤ fuel →
    (∀ c ∈ cs, isPxNumChar c = true) → replaceRemAux fuel (cs ++ ['r', 'e', 'm']) = cs := by
  intro fuel
  induction fuel with
  | zero => intro cs h; omega
  | succ f ih =>
    intro cs hlen hpx
    cases cs with
    | nil => simp [replaceRemAux]
    | cons c cs2 =>
      have hc : isPxNumChar c = true := hpx c (List.mem_cons_self _ _)
      have hcr : ¬(c = 'r') := by
        intro h
        subst h
        exact absurd hc (by decide)
      rw [List.cons_append, replaceRemAux, if_neg (fun hand => hcr hand.1)]
      rw [ih cs2 (by simpa using Nat.succ_le_succ_iff.mp hlen)
        (fun x hx => hpx x (List.mem_cons_of_mem _ hx))]

lemma replaceRem_append_rem (cs : List Char) (hpx : ∀ c ∈ cs, isPxNumChar c = true) :
    replaceRem (cs ++ ['r', 'e', 'm']) = cs := by
  refine replaceRemAux_append_rem _ _ ?_ hpx
  simp [replaceRem, List.length_append]

lemma remOfVal_px {s : String} (h : isPxLenStr s = true) :
    ∃ v : ℚ, remOfVal s = some (some v) := by
  simp only [isPxLenStr, Bool.and_eq_true, decide_eq_true_eq] at h
  obtain ⟨⟨hdig, hcount⟩, hrest⟩ := h
  have hrunpx : ∀ c ∈ s.toList.takeWhile isPxNumChar, isPxNumChar c = true :=
    fun c hc => List.mem_takeWhile_imp hc
  have hrun_ne : s.toList.takeWhile isPxNumChar ≠ [] := by
    intro he
    rw [he] at hdig
    simp at hdig
  have hmatch : pxMatch s = some (s.toList.takeWhile isPxNumChar) := by
    rw [pxMatch]
    simp only [hrest]
    rw [if_pos ⟨hrun_ne, rfl⟩]
  have hparse : parsePyFloat (s.toList.takeWhile isPxNumChar)
      = some ((digitsToNat ((s.toList.takeWhile isPxNumChar).takeWhile (fun c => c != '.')) : ℚ) +
        (digitsToNat (((s.toList.takeWhile isPxNumChar).dropWhile (fun c => c != '.')).drop 1) : ℚ) /
          10 ^ (((s.toList.takeWhile isPxNumChar).dropWhile (fun c => c != '.')).drop 1).length) := by
    rw [parsePyFloat, if_pos ⟨hdig, hcount, List.all_eq_true.mpr hrunpx⟩]
  set q := (digitsToNat ((s.toList.takeWhile isPxNumChar).takeWhile (fun c => c != '.')) : ℚ) +
    (digitsToNat (((s.toList.takeWhile isPxNumChar).dropWhile (fun c => c != '.')).drop 1) : ℚ) /
      10 ^ (((s.toList.takeWhile isPxNumChar).dropWhile (fun c => c != '.')).drop 1).length with hqdef
  have hq0 : (0 : ℚ) ≤ q := by
    rw [hqdef]
    positivity
  have hconv : px_to_rem s = some (pyFloatStr (q / 16) ++ "rem") := by
    simp only [px_to_rem, hmatch, hparse, Option.map_some']
  obtain ⟨hallpx, v, hv⟩ := pyFloatStr_px (q / 16) (by positivity)
  have hdata2 : (pyFloatStr (q / 16) ++ "rem").toList
      = (pyFloatStr (q / 16)).toList ++ ['r', 'e', 'm'] := rfl
  have hends : strEndsWith (pyFloatStr (q / 16) ++ "rem") "rem" = true := by
    simp only [strEndsWith, decide_eq_true_eq, hdata2]
    exact List.suffix_append _ _
  refine ⟨v, ?_⟩
  rw [remOfVal, hconv]
  simp only [bind, Option.some_bind, hends, eq_self_iff_true, if_true]
  rw [hdata2, replaceRem_append_rem _ hallpx, hv, Option.map_some']

lemma mapM_remOfVal_px : ∀ (spacing : List String),
    (∀ s ∈ spacing, isPxLenStr s = true) →
    ∃ opts, spacing.mapM remOfVal = some opts := by
  intro spacing
  induction spacing with
  | nil => exact fun _ => ⟨[], rfl⟩
  | cons a t ih =>
    intro h
    obtain ⟨v, hv⟩ := remOfVal_px (h a (List.mem_cons_self _ _))
    obtain ⟨opts, hopts⟩ := ih (fun x hx => h x (List.mem_cons_of_mem _ hx))
    refine ⟨some v :: opts, ?_⟩
    rw [List.mapM_cons, hv, hopts]
    rfl

/-- C7: for a list of pixel-length spacing strings the conversion loop never
faults; every collected rem value is snapped to the ladder entry of minimal
absolute distance with ties towards the smaller entry; and the final scale
merges the snapped keys with the baseline keys, one occurrence each. -/
theorem normalize_spacing_scale_spec (spacing : List String)
    (hval : ∀ s ∈ spacing, isPxLenStr s = true) :
    ∃ rems, remValuesOf spacing = some rems ∧
      (∃ ns, normalize_spacing_scale spacing = some ns) ∧
      (∀ r ∈ rems, ∃ m, snapToScale r = some m ∧ m ∈ standard_scale ∧
        ∀ y ∈ standard_scale, |m - r| ≤ |y - r| ∧ (|m - r| = |y - r| → m ≤ y)) ∧
      ((pyDictMerge basic_scale (used_valuesOf rems)).map Prod.fst).Nodup ∧
      (∀ k, k ∈ (pyDictMerge basic_scale (used_valuesOf rems)).map Prod.fst ↔
        k ∈ basic_scale.map Prod.fst ∨ ∃ r ∈ rems, snapToScale r = some k) := by
  obtain ⟨opts, hopts⟩ := mapM_remOfVal_px spacing hval
  have hrems : remValuesOf spacing
      = some (((opts.filterMap id).dedup).insertionSort (fun a b => a ≤ b)) := by
    rw [remValuesOf, hopts]
    rfl
  have hns : ∃ ns, normalize_spacing_scale spacing = some ns := by
    rw [normalize_spacing_scale, hrems]
    exact ⟨_, rfl⟩
  refine ⟨_, hrems, hns, fun r _ => snapToScale_spec r, ?_, ?_⟩
  · exact (pyDictMerge_keys basic_scale_keys_nodup (used_valuesOf_spec _).1).1
  · intro k
    rw [(pyDictMerge_keys basic_scale_keys_nodup (used_valuesOf_spec _).1).2 k,
      (used_valuesOf_spec _).2 k]

/-- Witness for C7 at the one-element spacing list 32px. -/
theorem normalize_spacing_scale_spec_witness :
    ∃ rems, remValuesOf ["32px"] = some rems ∧
      (∃ ns, normalize_spacing_scale ["32px"] = some ns) ∧
      (∀ r ∈ rems, ∃ m, snapToScale r = some m ∧ m ∈ standard_scale ∧
        ∀ y ∈ standard_scale, |m - r| ≤ |y - r| ∧ (|m - r| = |y - r| → m ≤ y)) ∧
      ((pyDictMerge basic_scale (used_valuesOf rems)).map Prod.fst).Nodup ∧
      (∀ k, k ∈ (pyDictMerge basic_scale (used_valuesOf rems)).map Prod.fst ↔
        k ∈ basic_scale.map Prod.fst ∨ ∃ r ∈ rems, snapToScale r = some k) :=
  normalize_spacing_scale_spec ["32px"] (by decide)

/-! ### Typography, radii, shadows and the assembled token document
(normalize_tokens.py lines 74-173 and 270-330) -/

/-- Substring containment, Python in on strings. -/
def strContainsSub (hay needle : List Char) : Bool :=
  (List.range (hay.length + 1)).any (fun i => needle.isPrefixOf (hay.drop i))

/-- The typography input document: a missing fontFamilies key and an empty
list make the classification loop a no-op alike. -/
structure TypographyInput where
  fontFamilies : List String
deriving DecidableEq, Repr

/-- The typography family of the token document. -/
structure Typography where
  fontFamilies : List (String × String)
  fontSizes : List (String × String)
  fontWeights : List (String × String)
  lineHeights : List (String × String)
deriving DecidableEq, Repr

/-- The fixed font size scale of normalize_typography. -/
def font_sizes : List (String × String) :=
  [("xs", "0.75rem"), ("sm", "0.875rem"), ("base", "1rem"), ("lg", "1.125rem"),
   ("xl", "1.25rem"), ("2xl", "1.5rem"), ("3xl", "1.875rem"), ("4xl", "2.25rem"),
   ("5xl", "3rem"), ("6xl", "3.75rem"), ("7xl", "4.5rem"), ("8xl", "6rem"),
   ("9xl", "8rem")]

/-- The fixed font weights of normalize_typography. -/
def font_weights : List (String × String) :=
  [("thin", "100"), ("extralight", "200"), ("light", "300"), ("normal", "400"),
   ("medium", "500"), ("semibold", "600"), ("bold", "700"), ("extrabold", "800"),
   ("black", "900")]

/-- The fixed line heights of normalize_typography. -/
def line_heights : List (String × String) :=
  [("none", "1"), ("tight", "1.25"), ("snug", "1.375"), ("normal", "1.5"),
   ("relaxed", "1.625"), ("loose", "2")]

/-- One iteration of the font family classification loop: first matching
family per slot, keyed sans, serif and mono. -/
def addFontFamily (ff : List (String × String)) (family : String) : List (String × String) :=
  let lower := family.toList.map Char.toLower
  let ff :=
    if (ff.lookup "sans").isNone &&
        (["sans", "helvetica", "arial", "inter"].any (fun x => strContainsSub lower x.toList))
    then ff ++ [("sans", family)] else ff
  let ff :=
    if (ff.lookup "serif").isNone && strContainsSub lower "serif".toList &&
        !(strContainsSub lower "sans".toList)
    then ff ++ [("serif", family)] else ff
  let ff :=
    if (ff.lookup "mono").isNone &&
        (["mono", "courier", "code", "console"].any (fun x => strContainsSub lower x.toList))
    then ff ++ [("mono", family)] else ff
  ff

/-- normalize_typography of normalize_tokens.py: classify the extracted font
families and fill the three slots with defaults when unmatched; sizes,
weights and line heights are always the fixed tables. -/
def normalize_typography (typography : TypographyInput) : Typography :=
  let font_families := typography.fontFamilies.foldl addFontFamily []
  let font_families := if (font_families.lookup "sans").isNone
    then font_families ++
      [("sans", "\x27Inter\x27, -apple-system, BlinkMacSystemFont, \x27Segoe UI\x27, sans-serif")]
    else font_families
  let font_families := if (font_families.lookup "serif").isNone
    then font_families ++ [("serif", "\x27Merriweather\x27, Georgia, serif")]
    else font_families
  let font_families := if (font_families.lookup "mono").isNone
    then font_families ++ [("mono", "\x27JetBrains Mono\x27, \x27Courier New\x27, monospace")]
    else font_families
  ⟨font_families, font_sizes, font_weights, line_heights⟩

/-- normalize_border_radius of normalize_tokens.py: always the fixed table,
the extracted values are accepted and ignored. -/
def normalize_border_radius (radius_values : List String) : List (String × String) :=
  [("none", "0"), ("sm", "0.125rem"), ("base", "0.25rem"), ("md", "0.375rem"),
   ("lg", "0.5rem"), ("xl", "0.75rem"), ("2xl", "1rem"), ("3xl", "1.5rem"),
   ("full", "9999px")]

/-- normalize_shadows of normalize_tokens.py: always the fixed table. -/
def normalize_shadows (shadow_values : List String) : List (String × String) :=
  [("sm", "0 1px 2px 0 rgb(0 0 0 / 0.05)"),
   ("base", "0 1px 3px 0 rgb(0 0 0 / 0.1), 0 1px 2px -1px rgb(0 0 0 / 0.1)"),
   ("md", "0 4px 6px -1px rgb(0 0 0 / 0.1), 0 2px 4px -2px rgb(0 0 0 / 0.1)"),
   ("lg", "0 10px 15px -3px rgb(0 0 0 / 0.1), 0 4px 6px -4px rgb(0 0 0 / 0.1)"),
   ("xl", "0 20px 25px -5px rgb(0 0 0 / 0.1), 0 8px 10px -6px rgb(0 0 0 / 0.1)"),
   ("2xl", "0 25px 50px -12px rgb(0 0 0 / 0.25)"),
   ("inner", "inset 0 2px 4px 0 rgb(0 0 0 / 0.05)"),
   ("none", "0 0 #0000")]

/-- The fixed breakpoints table of normalize_design_tokens. -/
def breakpoints_table : List (String × String) :=
  [("sm", "640px"), ("md", "768px"), ("lg", "1024px"), ("xl", "1280px"),
   ("2xl", "1536px")]

/-- The fixed transitions table of normalize_design_tokens. -/
def transitions_table : List (String × List (String × String)) :=
  [("duration", [("fast", "150ms"), ("base", "300ms"), ("slow", "500ms")]),
   ("easing", [("linear", "linear"), ("in", "cubic-bezier(0.4, 0, 1, 1)"),
     ("out", "cubic-bezier(0, 0, 0.2, 1)"), ("inOut", "cubic-bezier(0.4, 0, 0.2, 1)")])]

/-- The fixed z-index table of normalize_design_tokens. -/
def zIndex_table : List (String × String) :=
  [("0", "0"), ("10", "10"), ("20", "20"), ("30", "30"), ("40", "40"),
   ("50", "50"), ("auto", "auto")]

/-- A JSON-like value mirroring the Python dictionaries the engine emits. -/
inductive TokVal where
  | s : String → TokVal
  | obj : List (String × TokVal) → TokVal
deriving Repr

/-- A flat string dictionary as a TokVal. -/
def flatObj (l : List (String × String)) : TokVal :=
  TokVal.obj (l.map (fun kv => (kv.1, TokVal.s kv.2)))

/-- The colors family as a TokVal. -/
def colorsVal (nc : NormalizedColors) : TokVal :=
  TokVal.obj [("primary", flatObj nc.primary), ("semantic", flatObj nc.semantic),
    ("neutral", flatObj nc.neutral)]

/-- The typography family as a TokVal. -/
def typographyVal (t : Typography) : TokVal :=
  TokVal.obj [("fontFamilies", flatObj t.fontFamilies), ("fontSizes", flatObj t.fontSizes),
    ("fontWeights", flatObj t.fontWeights), ("lineHeights", flatObj t.lineHeights)]

/-- The transitions family as a TokVal. -/
def transitionsVal : TokVal :=
  TokVal.obj (transitions_table.map (fun kv => (kv.1, flatObj kv.2)))

/-- The extraction document handed to the normalizer: every family key is
optional, a missing key falls back to the empty default of the get call. -/
structure ExtractedData where
  colors : Option (List String)
  typography : Option TypographyInput
  spacing : Option (List String)
  borderRadius : Option (List String)
  shadows : Option (List String)

/-- normalize_design_tokens of normalize_tokens.py: the ordered document of
the eight token families. -/
def normalize_design_tokens (extracted_data : ExtractedData) : Option TokVal := do
  let colors ← normalize_colors (extracted_data.colors.getD [])
  let typography := normalize_typography (extracted_data.typography.getD ⟨[]⟩)
  let spacing ← normalize_spacing_scale (extracted_data.spacing.getD [])
  let borderRadius := normalize_border_radius (extracted_data.borderRadius.getD [])
  let shadows := normalize_shadows (extracted_data.shadows.getD [])
  pure (TokVal.obj [
    ("colors", colorsVal colors),
    ("typography", typographyVal typography),
    ("spacing", flatObj spacing),
    ("borderRadius", flatObj borderRadius),
    ("shadows", flatObj shadows),
    ("breakpoints", flatObj breakpoints_table),
    ("transitions", transitionsVal),
    ("zIndex", flatObj zIndex_table)])

/-- The empty extraction document: no family key present. -/
def emptyExtraction : ExtractedData :=
  ⟨none, none, none, none, none⟩

/-! ### Evaluation of the default token document (for the empty extraction) -/

lemma pyIntFloor_eval (q : ℚ) (v : Nat) (h : ⌊q⌋ = (v : ℤ)) : pyIntFloor q = v := by
  rw [pyIntFloor, h]
  simp

/-- The blue primary ramp the engine generates for the default base colour,
with the exact binary64 channel values of the program.  At step 950 the
darker factor is the double 0.19999999999999996, strictly below 1/5, so the
green channel is int(130 * factor) = 25 (hex 19): exact rational arithmetic
would give 26 there instead. -/
def default_blue_scale : List (String × String) :=
  [("500", "#3b82f6"), ("50", "#60d3ff"), ("100", "#5ccaff"), ("200", "#53b8ff"),
   ("300", "#4ba6ff"), ("400", "#4394ff"), ("600", "#306aca"), ("700", "#26539e"),
   ("800", "#1b3c72"), ("900", "#112547"), ("950", "#0b1931")]

set_option maxRecDepth 100000 in
lemma blue_scale_eval : generate_color_scale_from_hex "#3b82f6" = some default_blue_scale := by
  decide

lemma normalize_colors_nil :
    normalize_colors []
      = some ⟨default_blue_scale, semantic_colors, generate_grayscale_scale⟩ := by
  rw [normalize_colors]
  have hflag : List.mapM.loop
      (fun c => (is_grayscale_hex c).map (fun g => (c, g))) ([] : List String) []
      = some [] := rfl
  simp [bind, hflag, blue_scale_eval, generate_grayscale_scale]

lemma fracDigitChars_zero (fuel : Nat) : fracDigitChars fuel 0 = [] := by
  cases fuel <;> simp [fracDigitChars]

lemma fracStep (fuel : Nat) (q : ℚ) (d : Nat) (q2 : ℚ) (hq : q ≠ 0)
    (hd : pyIntFloor (q * 10) = d) (hq2 : q * 10 - (d : ℚ) = q2) :
    fracDigitChars (fuel + 1) q = Nat.digitChar d :: fracDigitChars fuel q2 := by
  rw [fracDigitChars, if_neg hq, hd, hq2]

lemma pyFloatStr_eighth : pyFloatStr ((1 : ℚ) / 8) = "0.125" := by
  have hden : (((1 : ℚ) / 8)).den = 8 := by norm_num
  have hip : pyIntFloor ((1 : ℚ) / 8) = 0 := pyIntFloor_eval _ _ (by norm_num)
  rw [pyFloatStr, hden, hip]
  rw [show ((((1 : ℚ) / 8)) - ((0 : Nat) : ℚ)) = ((1 : ℚ) / 8) from by norm_num]
  rw [show (8 : Nat) = 7 + 1 from rfl,
    fracStep 7 ((1 : ℚ) / 8) 1 ((1 : ℚ) / 4) (by norm_num) (pyIntFloor_eval _ _ (by norm_num)) (by norm_num)]
  rw [show (7 : Nat) = 6 + 1 from rfl,
    fracStep 6 ((1 : ℚ) / 4) 2 ((1 : ℚ) / 2) (by norm_num) (pyIntFloor_eval _ _ (by norm_num)) (by norm_num)]
  rw [show (6 : Nat) = 5 + 1 from rfl,
    fracStep 5 ((1 : ℚ) / 2) 5 (0 : ℚ) (by norm_num) (pyIntFloor_eval _ _ (by norm_num)) (by norm_num)]
  rw [fracDigitChars_zero]
  decide

lemma pyFloatStr_quarter : pyFloatStr ((1 : ℚ) / 4) = "0.25" := by
  have hden : (((1 : ℚ) / 4)).den = 4 := by norm_num
  have hip : pyIntFloor ((1 : ℚ) / 4) = 0 := pyIntFloor_eval _ _ (by norm_num)
  rw [pyFloatStr, hden, hip]
  rw [show ((((1 : ℚ) / 4)) - ((0 : Nat) : ℚ)) = ((1 : ℚ) / 4) from by norm_num]
  rw [show (4 : Nat) = 3 + 1 from rfl,
    fracStep 3 ((1 : ℚ) / 4) 2 ((1 : ℚ) / 2) (by norm_num) (pyIntFloor_eval _ _ (by norm_num)) (by norm_num)]
  rw [show (3 : Nat) = 2 + 1 from rfl,
    fracStep 2 ((1 : ℚ) / 2) 5 (0 : ℚ) (by norm_num) (pyIntFloor_eval _ _ (by norm_num)) (by norm_num)]
  rw [fracDigitChars_zero]
  decide

lemma pyFloatStr_half : pyFloatStr ((1 : ℚ) / 2) = "0.5" := by
  have hden : (((1 : ℚ) / 2)).den = 2 := by norm_num
  have hip : pyIntFloor ((1 : ℚ) / 2) = 0 := pyIntFloor_eval _ _ (by norm_num)
  rw [pyFloatStr, hden, hip]
  rw [show ((((1 : ℚ) / 2)) - ((0 : Nat) : ℚ)) = ((1 : ℚ) / 2) from by norm_num]
  rw [show (2 : Nat) = 1 + 1 from rfl,
    fracStep 1 ((1 : ℚ) / 2) 5 (0 : ℚ) (by norm_num) (pyIntFloor_eval _ _ (by norm_num)) (by norm_num)]
  rw [fracDigitChars_zero]
  decide

lemma pyFloatStr_threeq : pyFloatStr ((3 : ℚ) / 4) = "0.75" := by
  have hden : (((3 : ℚ) / 4)).den = 4 := by norm_num
  have hip : pyIntFloor ((3 : ℚ) / 4) = 0 := pyIntFloor_eval _ _ (by norm_num)
  rw [pyFloatStr, hden, hip]
  rw [show ((((3 : ℚ) / 4)) - ((0 : Nat) : ℚ)) = ((3 : ℚ) / 4) from by norm_num]
  rw [show (4 : Nat) = 3 + 1 from rfl,
    fracStep 3 ((3 : ℚ) / 4) 7 ((1 : ℚ) / 2) (by norm_num) (pyIntFloor_eval _ _ (by norm_num)) (by norm_num)]
  rw [show (3 : Nat) = 2 + 1 from rfl,
    fracStep 2 ((1 : ℚ) / 2) 5 (0 : ℚ) (by norm_num) (pyIntFloor_eval _ _ (by norm_num)) (by norm_num)]
  rw [fracDigitChars_zero]
  decide

lemma pyFloatStr_threehalves : pyFloatStr ((3 : ℚ) / 2) = "1.5" := by
  have hden : (((3 : ℚ) / 2)).den = 2 := by norm_num
  have hip : pyIntFloor ((3 : ℚ) / 2) = 1 := pyIntFloor_eval _ _ (by norm_num)
  rw [pyFloatStr, hden, hip]
  rw [show ((((3 : ℚ) / 2)) - ((1 : Nat) : ℚ)) = ((1 : ℚ) / 2) from by norm_num]
  rw [show (2 : Nat) = 1 + 1 from rfl,
    fracStep 1 ((1 : ℚ) / 2) 5 (0 : ℚ) (by norm_num) (pyIntFloor_eval _ _ (by norm_num)) (by norm_num)]
  rw [fracDigitChars_zero]
  decide

/-- The named spacing scale produced from an empty spacing list. -/
def default_spacing_scale : List (String × String) :=
  [("0", "0"), ("0.125", "0.125rem"), ("0.25", "0.25rem"), ("0.5", "0.5rem"),
   ("0.75", "0.75rem"), ("1", "1rem"), ("1.5", "1.5rem"), ("2", "2rem"),
   ("3", "3rem"), ("4", "4rem")]

lemma pyDictMerge_nil : pyDictMerge basic_scale [] = basic_scale := by
  rw [pyDictMerge]
  simp

lemma insertionSort_basic :
    basic_scale.insertionSort (fun kv kv2 => kv.1 ≤ kv2.1) = basic_scale := by
  norm_num [basic_scale, List.insertionSort, List.orderedInsert]

lemma spacing_empty_eval : normalize_spacing_scale [] = some default_spacing_scale := by
  rw [normalize_spacing_scale, show remValuesOf [] = some [] from rfl]
  simp only [bind, Option.some_bind, pure]
  rw [show used_valuesOf [] = [] from rfl, pyDictMerge_nil, insertionSort_basic]
  rw [basic_scale, default_spacing_scale]
  norm_num [pyFloatStr_eighth, pyFloatStr_quarter, pyFloatStr_half, pyFloatStr_threeq,
    pyFloatStr_threehalves, natDigits, natDigitsAux]
  decide

/-- The default font families for an empty typography input. -/
def default_font_families : List (String × String) :=
  [("sans", "\x27Inter\x27, -apple-system, BlinkMacSystemFont, \x27Segoe UI\x27, sans-serif"),
   ("serif", "\x27Merriweather\x27, Georgia, serif"),
   ("mono", "\x27JetBrains Mono\x27, \x27Courier New\x27, monospace")]

lemma typography_empty :
    normalize_typography ⟨[]⟩
      = ⟨default_font_families, font_sizes, font_weights, line_heights⟩ := rfl

/-- The fixed default token document, the exact value the engine emits for an
empty extraction document. -/
def defaultTokenDocument : TokVal :=
  TokVal.obj [
    ("colors", TokVal.obj [("primary", flatObj default_blue_scale),
      ("semantic", flatObj semantic_colors),
      ("neutral", flatObj generate_grayscale_scale)]),
    ("typography", TokVal.obj [("fontFamilies", flatObj default_font_families),
      ("fontSizes", flatObj font_sizes), ("fontWeights", flatObj font_weights),
      ("lineHeights", flatObj line_heights)]),
    ("spacing", flatObj default_spacing_scale),
    ("borderRadius", flatObj (normalize_border_radius [])),
    ("shadows", flatObj (normalize_shadows [])),
    ("breakpoints", flatObj breakpoints_table),
    ("transitions", transitionsVal),
    ("zIndex", flatObj zIndex_table)]

/-- C8: normalizing the empty extraction document yields exactly the fixed
default token document, whose top-level families appear in the fixed order
colors, typography, spacing, borderRadius, shadows, breakpoints, transitions,
zIndex. -/
theorem normalize_design_tokens_empty :
    normalize_design_tokens emptyExtraction = some defaultTokenDocument ∧
    ∀ fams, normalize_design_tokens emptyExtraction = some (TokVal.obj fams) →
      fams.map Prod.fst = ["colors", "typography", "spacing", "borderRadius",
        "shadows", "breakpoints", "transitions", "zIndex"] := by
  have hdoc : normalize_design_tokens emptyExtraction = some defaultTokenDocument := by
    rw [normalize_design_tokens]
    simp only [emptyExtraction, Option.getD_none, bind, normalize_colors_nil,
      Option.some_bind, spacing_empty_eval, typography_empty]
    rfl
  refine ⟨hdoc, ?_⟩
  intro fams hf
  rw [hdoc] at hf
  obtain h : defaultTokenDocument = TokVal.obj fams := Option.some.inj hf
  rw [defaultTokenDocument] at h
  obtain rfl : _ = fams := (TokVal.obj.inj h)
  rfl

/-! ### Image colour extraction (extract_image_colors.py lines 30-118)

The decoder and sampler boundary: the engine receives the decoded pixel
array; file lookup and decoding are modelled by the found flag and an Except
carrying the decoder exception text.  The subsampling call np.random.choice
draws from numpy global state that is never seeded; the drawn index list is
therefore an extra input (rng) of the model, not a function of the image. -/

/-- is_grayscale of extract_image_colors.py, applied to float centroids:
all pairwise channel differences below the threshold 15. -/
def is_grayscaleQ (c : ℚ × ℚ × ℚ) : Bool :=
  decide (|c.1 - c.2.1| < 15) && decide (|c.2.1 - c.2.2| < 15) &&
    decide (|c.1 - c.2.2| < 15)

/-- calculate_brightness applied to a float centroid. -/
def calculate_brightnessQ (c : ℚ × ℚ × ℚ) : ℚ :=
  0.299 * c.1 + 0.587 * c.2.1 + 0.114 * c.2.2

/-- rgb_to_hex applied to a float centroid: each channel truncated by int(). -/
def rgb_to_hexQ (c : ℚ × ℚ × ℚ) : String :=
  rgb_to_hex ⟨pyIntFloor c.1, pyIntFloor c.2.1, pyIntFloor c.2.2⟩

/-- Python round to even at integer precision. -/
def roundHalfEven (q : ℚ) : ℤ :=
  if q - ⌊q⌋ < 1 / 2 then ⌊q⌋
  else if q - ⌊q⌋ > 1 / 2 then ⌊q⌋ + 1
  else if Even ⌊q⌋ then ⌊q⌋ else ⌊q⌋ + 1

/-- Python round(x, 2) in the exact-rational float model. -/
def pyRound2 (q : ℚ) : ℚ :=
  (roundHalfEven (q * 100) : ℚ) / 100

/-- Componentwise mean of a sample list. -/
def meanRGB (l : List RGB) : ℚ × ℚ × ℚ :=
  if l.length = 0 then (0, 0, 0)
  else ((l.map (fun p => (p.r : ℚ))).sum / l.length,
        (l.map (fun p => (p.g : ℚ))).sum / l.length,
        (l.map (fun p => (p.b : ℚ))).sum / l.length)

/-- Modelled from the spec: the clustering routine (sklearn KMeans with the
fixed random_state=42 and n_init=10), external library code that is not part
of the repository.  The spec pins down what the claims use: the fit is
deterministic in its input sample list (the seed is fixed), it raises when
the sample count is below the cluster count — in particular on an empty
input — and otherwise yields num_colors clusters with rational centroids and
one label per sample.  The stand-in partitions the samples round-robin by
index and takes componentwise means, the exact k-means optimum for one
cluster. -/
def kmeans_fit (k : Nat) (pts : List RGB) : Option (List (ℚ × ℚ × ℚ) × List Nat) :=
  if k = 0 ∨ pts.length < k then none
  else
    some ((List.range k).map (fun i =>
        meanRGB ((pts.enum.filter (fun p => p.1 % k = i)).map Prod.snd)),
      (List.range pts.length).map (fun i => i % k))

/-- Modelled from the spec: the text of the ValueError the clustering library
raises when the sample count is below the cluster count; the engine only
forwards str(e), so only its presence matters to the claims. -/
def kmeansErrorMessage (k n_samples : Nat) : String :=
  "n_samples=" ++ (⟨natDigits n_samples⟩ : String) ++
    " should be >= n_clusters=" ++ (⟨natDigits k⟩ : String)

/-- The result dictionary of extract_colors_from_image: a success payload or
a structured error with an optional suggestion. -/
structure ExtractPayload where
  total_colors : Nat
  all_colors : List ColorFreq
  categorized : Categorized
deriving DecidableEq, Repr

inductive ExtractResult where
  | ok : ExtractPayload → ExtractResult
  | err : String → Option String → ExtractResult
deriving DecidableEq, Repr

/-- The image source seen through the decoder boundary: the path (used in the
error text), whether the file exists, and either the decoded, resized,
flattened pixel rows or the decoder exception text. -/
structure ImageSource where
  path : String
  found : Bool
  pixels : Except String (List RGB)

/-- extract_colors_from_image of extract_image_colors.py.  The outer
try/except makes the function total: every failure is returned as a
structured error value, and the empty-sample failure arises inside the
clustering call, whose message is forwarded without a suggestion.  The
subsampling branch consumes indices from the unseeded global generator,
passed as rng. -/
def extract_colors_from_image (img : ImageSource) (num_colors : Nat)
    (sample_fraction : ℚ) (rng : Nat → Nat → List Nat) : ExtractResult :=
  if !img.found then
    .err ("File not found: " ++ img.path) (some "Check the file path is correct")
  else
    match img.pixels with
    | .error e =>
      .err ("Cannot open image: " ++ e)
        (some "Ensure file is a valid image format (PNG, JPG, etc.)")
    | .ok pixels0 =>
      let sampled := if sample_fraction < 1 then
          (rng pixels0.length (pyIntFloor ((pixels0.length : ℚ) * sample_fraction))).filterMap
            (fun i => pixels0.get? i)
        else pixels0
      let pixels := sampled.filter
        (fun p => !(decide (p = ⟨0, 0, 0⟩) || decide (p = ⟨255, 255, 255⟩)))
      match kmeans_fit num_colors pixels with
      | none => .err (kmeansErrorMessage num_colors pixels.length) none
      | some centersLabels =>
        let color_freq := (List.range num_colors).map (fun i =>
          ({ rgb := ⟨pyIntFloor (centersLabels.1.getD i (0, 0, 0)).1,
               pyIntFloor (centersLabels.1.getD i (0, 0, 0)).2.1,
               pyIntFloor (centersLabels.1.getD i (0, 0, 0)).2.2⟩
             hex := rgb_to_hexQ (centersLabels.1.getD i (0, 0, 0))
             percentage := pyRound2
               (((centersLabels.2.count i : ℚ) / (centersLabels.2.length : ℚ)) * 100)
             brightness := pyRound2 (calculate_brightnessQ (centersLabels.1.getD i (0, 0, 0)))
             is_grayscale := is_grayscaleQ (centersLabels.1.getD i (0, 0, 0)) } : ColorFreq))
        let sorted := color_freq.insertionSort (fun a b => b.percentage ≤ a.percentage)
        .ok ⟨num_colors, sorted, categorize_colors sorted⟩

lemma kmeans_fit_nil (k : Nat) : kmeans_fit k [] = none := by
  rw [kmeans_fit]
  by_cases hk : k = 0
  · rw [if_pos (Or.inl hk)]
  · rw [if_pos (Or.inr (by simpa using Nat.pos_of_ne_zero hk))]

/-- C5 counterexample: with every pixel pure black or pure white the
post-filter sample set is empty, and the function returns the forwarded
clustering exception text as a structured error — with no suggestion. -/
theorem extract_empty_filter_err_no_suggestion :
    extract_colors_from_image ⟨"photo.png", true, Except.ok [⟨0, 0, 0⟩, ⟨255, 255, 255⟩]⟩
        16 1 (fun _ _ => [])
      = ExtractResult.err (kmeansErrorMessage 16 0) none := by
  rw [extract_colors_from_image]
  norm_num [kmeans_fit_nil]

/-- C5 as amended: whenever the sample set is empty after discarding pure
black and white, extraction returns a structured error holding the forwarded
exception text and never an unhandled fault, but carries no remediation
suggestion (the suggestion only accompanies the missing-file and unopenable-
image errors). -/
theorem extract_empty_filter_spec (path : String) (pts : List RGB) (k : Nat) (f : ℚ)
    (rng : Nat → Nat → List Nat)
    (hempty : ((if f < 1 then
        (rng pts.length (pyIntFloor ((pts.length : ℚ) * f))).filterMap
          (fun i => pts.get? i)
      else pts).filter
        (fun p => !(decide (p = ⟨0, 0, 0⟩) || decide (p = ⟨255, 255, 255⟩)))) = []) :
    extract_colors_from_image ⟨path, true, Except.ok pts⟩ k f rng
      = ExtractResult.err (kmeansErrorMessage k 0) none := by
  rw [extract_colors_from_image]
  simp only [Bool.not_true, Bool.false_eq_true, if_false, hempty, kmeans_fit_nil,
    List.length_nil]

/-- Witness for the amended C5 at a one-black-pixel image. -/
theorem extract_empty_filter_spec_witness :
    extract_colors_from_image ⟨"photo.png", true, Except.ok [⟨0, 0, 0⟩]⟩ 16 1 (fun _ _ => [])
      = ExtractResult.err (kmeansErrorMessage 16 0) none :=
  extract_empty_filter_spec "photo.png" [⟨0, 0, 0⟩] 16 1 (fun _ _ => [])
    (by norm_num)

/-- A two-pixel image used to exhibit the unseeded subsampling. -/
def twoPixelImage : ImageSource :=
  ⟨"img.png", true, Except.ok [⟨100, 0, 0⟩, ⟨0, 100, 0⟩]⟩

/-- The payload entry the pipeline builds from a single surviving sample. -/
def entryOf (pt : RGB) : ColorFreq :=
  { rgb := ⟨pyIntFloor (pt.r : ℚ), pyIntFloor (pt.g : ℚ), pyIntFloor (pt.b : ℚ)⟩
    hex := rgb_to_hexQ ((pt.r : ℚ), (pt.g : ℚ), (pt.b : ℚ))
    percentage := pyRound2 ((((([0] : List Nat).count 0 : ℚ)) / (([0] : List Nat).length : ℚ)) * 100)
    brightness := pyRound2 (calculate_brightnessQ ((pt.r : ℚ), (pt.g : ℚ), (pt.b : ℚ)))
    is_grayscale := is_grayscaleQ ((pt.r : ℚ), (pt.g : ℚ), (pt.b : ℚ)) }

lemma kmeans_fit_single (pt : RGB) :
    kmeans_fit 1 [pt] = some ([((pt.r : ℚ), (pt.g : ℚ), (pt.b : ℚ))], [0]) := by
  rw [kmeans_fit, if_neg (by norm_num)]
  rw [show List.range 1 = [0] from rfl]
  simp only [List.map_cons, List.map_nil, List.length_singleton]
  norm_num [List.enum, meanRGB]
  decide

lemma extract_pair_eval (pt : RGB) (idx : Nat)
    (hget : ([(⟨100, 0, 0⟩ : RGB), ⟨0, 100, 0⟩]).get? idx = some pt)
    (hb : (!(decide (pt = (⟨0, 0, 0⟩ : RGB)) || decide (pt = (⟨255, 255, 255⟩ : RGB))))
        = true) :
    extract_colors_from_image twoPixelImage 1 (1 / 2) (fun _ _ => [idx])
      = ExtractResult.ok ⟨1, [entryOf pt], categorize_colors [entryOf pt]⟩ := by
  rw [extract_colors_from_image]
  simp only [twoPixelImage, Bool.not_true, Bool.false_eq_true, if_false]
  rw [if_pos (by norm_num : (1 : ℚ) / 2 < 1)]
  simp only [List.filterMap_cons, List.filterMap_nil, hget]
  have hfil : ([pt].filter
      (fun p => !(decide (p = (⟨0, 0, 0⟩ : RGB)) || decide (p = (⟨255, 255, 255⟩ : RGB)))))
      = [pt] := by
    rw [List.filter_cons, hb, if_pos rfl, List.filter_nil]
  rw [hfil, kmeans_fit_single]
  rfl

lemma entryOf_hex (pt : RGB) : (entryOf pt).hex = rgb_to_hex pt := by
  show rgb_to_hexQ _ = _
  rw [rgb_to_hexQ, pyIntFloor_natCast, pyIntFloor_natCast, pyIntFloor_natCast]

/-- C9 counterexample: the same image, cluster count and sample fraction give
different outputs for two states of the unseeded sampling generator — the
pixel subsampling of extract_colors_from_image is not covered by the fixed
clustering seed. -/
theorem extract_unseeded_rng_matters :
    extract_colors_from_image twoPixelImage 1 (1 / 2) (fun _ _ => [0])
      ≠ extract_colors_from_image twoPixelImage 1 (1 / 2) (fun _ _ => [1]) := by
  rw [extract_pair_eval ⟨100, 0, 0⟩ 0 (by decide) (by decide),
    extract_pair_eval ⟨0, 100, 0⟩ 1 (by decide) (by decide)]
  intro h
  have h2 := ExtractResult.ok.inj h
  have h3 : entryOf ⟨100, 0, 0⟩ = entryOf ⟨0, 100, 0⟩ := by
    have hl := (ExtractPayload.mk.inj h2).2.1
    exact (List.cons.inj hl).1
  have hx := congrArg ColorFreq.hex h3
  rw [entryOf_hex, entryOf_hex] at hx
  exact absurd hx (by decide)

/-- C9 as amended: with no subsampling (sample fraction at least 1) the
extraction is deterministic — independent of the state of the random
generator — because the clustering itself runs with a fixed seed.  With a
fraction below 1 the unseeded subsampling can change the result. -/
theorem extract_deterministic_without_subsampling (img : ImageSource) (k : Nat) (f : ℚ)
    (rng₁ rng₂ : Nat → Nat → List Nat) (hf : ¬ f < 1) :
    extract_colors_from_image img k f rng₁ = extract_colors_from_image img k f rng₂ := by
  rw [extract_colors_from_image, extract_colors_from_image]
  simp only [if_neg hf]

/-- Witness for the amended C9 at sample fraction 1 and two different
generator states. -/
theorem extract_deterministic_without_subsampling_witness :
    extract_colors_from_image ⟨"img.png", true, Except.ok [⟨1, 2, 3⟩]⟩ 1 1 (fun _ _ => [0])
      = extract_colors_from_image ⟨"img.png", true, Except.ok [⟨1, 2, 3⟩]⟩ 1 1
          (fun _ _ => [7, 7]) :=
  extract_deterministic_without_subsampling _ 1 1 _ _ (by norm_num)

end DS
